import Mathlib

/-!
# Verification of the Cloudreve share preview and resolution engine

Shallow embedding of the share-preview core of the cloudreve/cloudreve
repository: the percent-escape sanitizer, the share-path normalizer, the
share status resolver, the redirect-URL builder, the Open-Graph template
renderer with magic-variable substitution, and the preview middleware.

Go strings are modelled as Lean strings (lists of characters) except where
the source operates on raw bytes, in which case lists of byte values
(natural numbers below 256) are used.  Collaborators that live outside the
embedded source files (the share store, the hash-id codec, the route
builders, the settings provider) are modelled as explicit parameters or
environment fields, mirroring their narrow interfaces.
-/

set_option linter.unusedVariables false

/-! ## Byte-level helpers (src/unnamed/part_003, middleware package)

The sanitizer in part_003 walks the raw string byte by byte, so this part of
the embedding works on byte values.  Only comparisons are performed on the
bytes, never arithmetic, so natural numbers model Go bytes faithfully here.
-/

/-- Embeds isHexDigit from src/unnamed/part_003: ASCII digit or a-f or A-F. -/
def isHexDigit (b : Nat) : Bool :=
  decide ((48 ≤ b ∧ b ≤ 57) ∨ (97 ≤ b ∧ b ≤ 102) ∨ (65 ≤ b ∧ b ≤ 70))

/-- ASCII bytes of a Lean string, for concrete test inputs. -/
def strBytes (s : String) : List Nat :=
  s.data.map Char.toNat

/-- The loop of sanitizeInvalidPercentEscapes from src/unnamed/part_003:
a percent byte (37) followed by two hex digits is copied verbatim and the scan
jumps past the digits; any other percent byte is replaced by the three bytes
of "%25" (37, 50, 53) and the scan continues with the next byte; non-percent
bytes are copied unchanged.  The two short fallback branches spell out the
source's bounds check i+2 < len(raw). -/
def sanitizeScan : List Nat → List Nat
  | [] => []
  | b :: rest =>
    if b = 37 then
      match rest with
      | h1 :: h2 :: rest2 =>
        if isHexDigit h1 && isHexDigit h2 then
          37 :: h1 :: h2 :: sanitizeScan rest2
        else
          37 :: 50 :: 53 :: sanitizeScan (h1 :: h2 :: rest2)
      | [] => 37 :: 50 :: 53 :: sanitizeScan []
      | [x] => 37 :: 50 :: 53 :: sanitizeScan [x]
    else
      b :: sanitizeScan rest
termination_by l => l.length
decreasing_by all_goals simp +arith

/-- Embeds sanitizeInvalidPercentEscapes from src/unnamed/part_003: strings
without a percent byte are returned as-is, otherwise the byte scan rebuilds
the string. -/
def sanitizeInvalidPercentEscapes (raw : List Nat) : List Nat :=
  if 37 ∈ raw then sanitizeScan raw else raw

/-- A byte string contains only valid percent escapes: every percent byte is
followed by two hexadecimal digits (which the scan then skips).  This is the
spec-side well-formedness predicate used to state the fixed-point property of
the sanitizer. -/
def onlyValidEscapes : List Nat → Bool
  | [] => true
  | 37 :: h1 :: h2 :: rest => isHexDigit h1 && isHexDigit h2 && onlyValidEscapes rest
  | 37 :: _ => false
  | _ :: rest => onlyValidEscapes rest

theorem sanitizeScan_nil : sanitizeScan [] = [] := by
  rw [sanitizeScan.eq_def]

theorem sanitizeScan_escape (h1 h2 : Nat) (t : List Nat)
    (hh : (isHexDigit h1 && isHexDigit h2) = true) :
    sanitizeScan (37 :: h1 :: h2 :: t) = 37 :: h1 :: h2 :: sanitizeScan t := by
  rw [sanitizeScan.eq_def]
  simp [hh]

theorem sanitizeScan_invalid (h1 h2 : Nat) (t : List Nat)
    (hh : (isHexDigit h1 && isHexDigit h2) = false) :
    sanitizeScan (37 :: h1 :: h2 :: t) = 37 :: 50 :: 53 :: sanitizeScan (h1 :: h2 :: t) := by
  rw [sanitizeScan.eq_def]
  simp [hh]

theorem sanitizeScan_one : sanitizeScan [37] = 37 :: 50 :: 53 :: sanitizeScan [] := by
  rw [sanitizeScan.eq_def]
  rfl

theorem sanitizeScan_two (x : Nat) : sanitizeScan [37, x] = 37 :: 50 :: 53 :: sanitizeScan [x] := by
  rw [sanitizeScan.eq_def]
  rfl

theorem sanitizeScan_other (b : Nat) (t : List Nat) (hb : b ≠ 37) :
    sanitizeScan (b :: t) = b :: sanitizeScan t := by
  rw [sanitizeScan.eq_def]
  simp [hb]

theorem onlyValidEscapes_escape (h1 h2 : Nat) (rest : List Nat) :
    onlyValidEscapes (37 :: h1 :: h2 :: rest) =
      (isHexDigit h1 && isHexDigit h2 && onlyValidEscapes rest) := rfl

theorem onlyValidEscapes_cons_ne (b : Nat) (hb : b ≠ 37) (rest : List Nat) :
    onlyValidEscapes (b :: rest) = onlyValidEscapes rest := by
  match rest with
  | [] => simp [onlyValidEscapes, hb]
  | [x] => simp [onlyValidEscapes, hb]
  | x :: y :: t => simp [onlyValidEscapes, hb]

theorem sanitizeScan_of_onlyValid (l : List Nat) (h : onlyValidEscapes l = true) :
    sanitizeScan l = l := by
  induction l using sanitizeScan.induct with
  | case1 => exact sanitizeScan_nil
  | case2 h1 h2 rest2 hhex ih =>
    rw [onlyValidEscapes_escape, Bool.and_eq_true] at h
    rw [sanitizeScan_escape h1 h2 rest2 hhex, ih h.2]
  | case3 h1 h2 rest2 hhex ih =>
    rw [onlyValidEscapes_escape, Bool.and_eq_true] at h
    exact absurd h.1 hhex
  | case4 ih =>
    simp [onlyValidEscapes] at h
  | case5 x ih =>
    simp [onlyValidEscapes] at h
  | case6 b rest hb ih =>
    rw [sanitizeScan_other b rest hb]
    rw [onlyValidEscapes_cons_ne b hb] at h
    rw [ih h]

theorem onlyValidEscapes_sanitizeScan (l : List Nat) :
    onlyValidEscapes (sanitizeScan l) = true := by
  induction l using sanitizeScan.induct with
  | case1 => rw [sanitizeScan_nil]; rfl
  | case2 h1 h2 rest2 hhex ih =>
    rw [sanitizeScan_escape h1 h2 rest2 hhex, onlyValidEscapes_escape, hhex, ih]
    rfl
  | case3 h1 h2 rest2 hhex ih =>
    rw [sanitizeScan_invalid h1 h2 rest2 (by simpa using hhex), onlyValidEscapes_escape, ih]
    decide
  | case4 ih =>
    rw [sanitizeScan_one, onlyValidEscapes_escape, ih]
    decide
  | case5 x ih =>
    rw [sanitizeScan_two, onlyValidEscapes_escape, ih]
    decide
  | case6 b rest hb ih =>
    rw [sanitizeScan_other b rest hb, onlyValidEscapes_cons_ne b hb, ih]

theorem onlyValidEscapes_of_no_percent (l : List Nat) (h : 37 ∉ l) :
    onlyValidEscapes l = true := by
  induction l with
  | nil => rfl
  | cons b rest ih =>
    have hb : b ≠ 37 := fun hb => h (hb ▸ List.mem_cons_self b rest)
    rw [onlyValidEscapes_cons_ne b hb]
    exact ih (fun hm => h (List.mem_cons_of_mem b hm))

/-- C5: the percent-escape sanitizer rewrites each percent byte not followed
by two hexadecimal digits to "%25", keeps every valid "%XX" escape
byte-for-byte, keeps non-percent bytes unchanged, fixes strings containing
only valid escapes, and turns "%zz" into "%25zz". -/
theorem percent_sanitizer_spec :
    (∀ l : List Nat, onlyValidEscapes l = true → sanitizeInvalidPercentEscapes l = l) ∧
    (∀ l : List Nat, onlyValidEscapes (sanitizeInvalidPercentEscapes l) = true) ∧
    (∀ (h1 h2 : Nat) (t : List Nat), isHexDigit h1 = true → isHexDigit h2 = true →
      sanitizeScan (37 :: h1 :: h2 :: t) = 37 :: h1 :: h2 :: sanitizeScan t) ∧
    (∀ rest : List Nat,
      (∀ (h1 h2 : Nat) (t : List Nat), rest = h1 :: h2 :: t →
        (isHexDigit h1 && isHexDigit h2) = false) →
      sanitizeScan (37 :: rest) = 37 :: 50 :: 53 :: sanitizeScan rest) ∧
    (∀ (b : Nat) (t : List Nat), b ≠ 37 → sanitizeScan (b :: t) = b :: sanitizeScan t) ∧
    sanitizeInvalidPercentEscapes (strBytes "%zz") = strBytes "%25zz" := by
  refine ⟨?_, ?_, ?_, ?_, ?_, ?_⟩
  · intro l h
    unfold sanitizeInvalidPercentEscapes
    split
    · exact sanitizeScan_of_onlyValid l h
    · rfl
  · intro l
    unfold sanitizeInvalidPercentEscapes
    split
    · exact onlyValidEscapes_sanitizeScan l
    · exact onlyValidEscapes_of_no_percent l (by assumption)
  · intro h1 h2 t hh1 hh2
    exact sanitizeScan_escape h1 h2 t (by rw [hh1, hh2]; rfl)
  · intro rest hrest
    match rest with
    | [] => exact sanitizeScan_one
    | [x] => exact sanitizeScan_two x
    | h1 :: h2 :: t => exact sanitizeScan_invalid h1 h2 t (hrest h1 h2 t rfl)
  · intro b t hb
    exact sanitizeScan_other b t hb
  · show sanitizeInvalidPercentEscapes (strBytes "%zz") = strBytes "%25zz"
    have h1 : strBytes "%zz" = [37, 122, 122] := by decide
    have h2 : strBytes "%25zz" = [37, 50, 53, 122, 122] := by decide
    rw [h1, h2]
    rw [sanitizeInvalidPercentEscapes, if_pos (by decide)]
    rw [sanitizeScan_invalid 122 122 [] (by decide)]
    rw [sanitizeScan_other 122 [122] (by decide), sanitizeScan_other 122 [] (by decide),
      sanitizeScan_nil]

/-- C5 witness: the theorem applied at concrete inputs discharging each
hypothesis. -/
theorem percent_sanitizer_spec_witness :
    sanitizeInvalidPercentEscapes (strBytes "a%41") = strBytes "a%41" ∧
    onlyValidEscapes (sanitizeInvalidPercentEscapes (strBytes "a%q")) = true ∧
    sanitizeScan (37 :: 52 :: 49 :: []) = 37 :: 52 :: 49 :: sanitizeScan [] ∧
    sanitizeScan (37 :: [122, 122]) = 37 :: 50 :: 53 :: sanitizeScan [122, 122] ∧
    sanitizeScan (97 :: []) = 97 :: sanitizeScan [] :=
  ⟨percent_sanitizer_spec.1 (strBytes "a%41") (by decide),
   percent_sanitizer_spec.2.1 (strBytes "a%q"),
   percent_sanitizer_spec.2.2.1 52 49 [] (by decide) (by decide),
   percent_sanitizer_spec.2.2.2.1 [122, 122]
     (fun h1 h2 t h => by
       cases h
       decide),
   percent_sanitizer_spec.2.2.2.2.1 97 [] (by decide)⟩

/-! ## Share path normalization (src/unnamed/part_002)

SanitizeSharePath prepends a slash, runs Go's path.Clean, and strips the
leading slash again.  path.Clean lives in the Go standard library; for rooted
inputs (every input here starts with the prepended slash) its lexical
processing is: split on the separator, drop empty and dot segments, let a
dot-dot segment remove the preceding kept segment (or nothing at the root),
and rejoin with single separators behind a leading slash. -/

/-- Split a character list on the slash separator (the segment view that Go
path.Clean processes). -/
def splitSlash : List Char → List (List Char)
  | [] => [[]]
  | c :: rest =>
    if c = '/' then [] :: splitSlash rest
    else
      match splitSlash rest with
      | s :: ss => (c :: s) :: ss
      | [] => [[c]]

/-- One step of path.Clean segment processing; the accumulator holds the kept
segments in reverse order, so a dot-dot segment drops the head. -/
def cleanStep (acc : List (List Char)) (seg : List Char) : List (List Char) :=
  if seg = [] ∨ seg = ['.'] then acc
  else if seg = ['.', '.'] then acc.tail
  else seg :: acc

/-- Go path.Clean restricted to rooted inputs (the only inputs produced by
SanitizeSharePath, which always prepends a slash). -/
def pathCleanRooted (p : String) : String :=
  ⟨'/' :: List.intercalate ['/'] (((splitSlash p.data).foldl cleanStep []).reverse)⟩

/-- Embeds strings.TrimPrefix(s, "/") from Go. -/
def trimOneLeadingSlash (s : String) : String :=
  match s.data with
  | '/' :: rest => ⟨rest⟩
  | _ => s

/-- Embeds SanitizeSharePath from src/unnamed/part_002. -/
def SanitizeSharePath (raw : String) : String :=
  if raw = "" then ""
  else trimOneLeadingSlash (pathCleanRooted ("/" ++ raw))

/-- A segment kept by path.Clean: nonempty, not dot, not dot-dot, slash-free. -/
def cleanSeg (seg : List Char) : Prop :=
  seg ≠ [] ∧ seg ≠ ['.'] ∧ seg ≠ ['.', '.'] ∧ '/' ∉ seg

theorem splitSlash_no_slash (l : List Char) : ∀ p ∈ splitSlash l, '/' ∉ p := by
  induction l with
  | nil =>
    intro p hp
    simp [splitSlash] at hp
    simp [hp]
  | cons c rest ih =>
    intro p hp
    by_cases hc : c = '/'
    · simp only [splitSlash, if_pos hc] at hp
      rcases List.mem_cons.1 hp with h | h
      · simp [h]
      · exact ih p h
    · simp only [splitSlash, if_neg hc] at hp
      rcases hss : splitSlash rest with _ | ⟨s, ss⟩
      · rw [hss] at hp
        rcases List.mem_cons.1 hp with h | h
        · subst h
          intro hmem
          rcases List.mem_cons.1 hmem with h | h
          · exact hc h.symm
          · simp at h
        · simp at h
      · rw [hss] at hp
        rcases List.mem_cons.1 hp with h | h
        · subst h
          intro hmem
          rcases List.mem_cons.1 hmem with h | h
          · exact hc h.symm
          · exact ih s (hss ▸ List.mem_cons_self s ss) h
        · exact ih p (hss ▸ List.mem_cons_of_mem s h)

theorem cleanStep_inv (acc : List (List Char)) (seg : List Char)
    (hacc : ∀ s ∈ acc, cleanSeg s) (hseg : '/' ∉ seg) :
    ∀ s ∈ cleanStep acc seg, cleanSeg s := by
  intro s hs
  unfold cleanStep at hs
  split at hs
  · exact hacc s hs
  · split at hs
    · exact hacc s (List.mem_of_mem_tail hs)
    · rcases List.mem_cons.1 hs with h | h
      · subst h
        refine ⟨?_, ?_, ?_, hseg⟩ <;> simp_all
      · exact hacc s h

theorem foldl_cleanStep_inv (segs : List (List Char)) (acc : List (List Char))
    (hacc : ∀ s ∈ acc, cleanSeg s) (hsegs : ∀ p ∈ segs, '/' ∉ p) :
    ∀ s ∈ segs.foldl cleanStep acc, cleanSeg s := by
  induction segs generalizing acc with
  | nil => exact hacc
  | cons seg rest ih =>
    intro s hs
    rw [List.foldl_cons] at hs
    exact ih (cleanStep acc seg)
      (cleanStep_inv acc seg hacc (hsegs seg (List.mem_cons_self seg rest)))
      (fun p hp => hsegs p (List.mem_cons_of_mem seg hp)) s hs

theorem intercalate_cons_cons (sep a b : List Char) (t : List (List Char)) :
    List.intercalate sep (a :: b :: t) = a ++ sep ++ List.intercalate sep (b :: t) := by
  simp [List.intercalate, List.intersperse]

theorem intercalate_head_ne (sep : List Char) (segs : List (List Char))
    (hsegs : ∀ s ∈ segs, cleanSeg s) :
    (List.intercalate sep segs).head? ≠ some '/' := by
  match segs with
  | [] => simp [List.intercalate]
  | [a] =>
    have ha := hsegs a (List.mem_cons_self a [])
    have : List.intercalate sep [a] = a := by simp [List.intercalate]
    rw [this]
    match a, ha with
    | [], ha => exact absurd rfl ha.1
    | c :: t, ha =>
      simp only [List.head?]
      intro hc
      exact ha.2.2.2 (by simp at hc; simp [hc])
  | a :: b :: t =>
    have ha := hsegs a (List.mem_cons_self a (b :: t))
    rw [intercalate_cons_cons]
    match a, ha with
    | [], ha => exact absurd rfl ha.1
    | c :: t2, ha =>
      simp only [List.cons_append, List.head?]
      intro hc
      exact ha.2.2.2 (by simp at hc; simp [hc])

/-- C6: every normalized share sub-path is a slash-join of segments that are
nonempty and distinct from dot and dot-dot (so it never denotes an ancestor of
the share root), it never starts with a separator, and the empty input
normalizes to the empty string. -/
theorem share_path_normalization_safe :
    SanitizeSharePath "" = "" ∧
    ∀ raw : String, ∃ segs : List (List Char),
      (∀ seg ∈ segs, seg ≠ [] ∧ seg ≠ ['.'] ∧ seg ≠ ['.', '.'] ∧ '/' ∉ seg) ∧
      (SanitizeSharePath raw).data = List.intercalate ['/'] segs ∧
      (SanitizeSharePath raw).data.head? ≠ some '/' := by
  constructor
  · rfl
  · intro raw
    by_cases hraw : raw = ""
    · exact ⟨[], by simp, by simp [hraw, SanitizeSharePath, List.intercalate],
        by simp [hraw, SanitizeSharePath]⟩
    · refine ⟨((splitSlash ("/" ++ raw).data).foldl cleanStep []).reverse, ?_, ?_, ?_⟩
      · intro seg hseg
        exact foldl_cleanStep_inv _ [] (by simp)
          (splitSlash_no_slash _) seg (List.mem_reverse.1 hseg)
      · simp only [SanitizeSharePath, if_neg hraw, pathCleanRooted, trimOneLeadingSlash]
      · simp only [SanitizeSharePath, if_neg hraw, pathCleanRooted, trimOneLeadingSlash]
        exact intercalate_head_ne ['/'] _
          (fun s hs => foldl_cleanStep_inv _ [] (by simp)
            (splitSlash_no_slash _) s (List.mem_reverse.1 hs))

/-- C6 witness: the theorem applied at concrete inputs. -/
theorem share_path_normalization_safe_witness :
    SanitizeSharePath "" = "" ∧
    (SanitizeSharePath "a/../../b//./c").data.head? ≠ some '/' :=
  ⟨share_path_normalization_safe.1, by
    obtain ⟨segs, h1, h2, h3⟩ := share_path_normalization_safe.2 "a/../../b//./c"
    exact h3⟩

/-! ## Share records and the status resolver (src/unnamed/part_002, visit.go)

The ent entities and the inventory collaborators live outside the embedded
source files.  A share record carries the fields the embedded code reads:
the stored password, the owning-user edge and the root-file edge (eager
loaded, hence optional), and the expiry/cancellation state consulted by the
validity checker. -/

structure ShareUser where
  id : Nat
  nick : String
  deriving DecidableEq, Repr

structure ShareFile where
  fileType : Nat
  name : String
  size : Int
  deriving DecidableEq, Repr

structure ShareRec where
  password : String
  expired : Bool
  user : Option ShareUser
  file : Option ShareFile
  deriving DecidableEq, Repr

/-- Errors surfaced by the collaborator store; ent.IsNotFound distinguishes
the not-found error from any other failure. -/
inductive GoErr where
  | notFound
  | expiredShare
  | other (code : Nat)
  deriving DecidableEq, Repr

/-- Embeds ent.IsNotFound. -/
def isNotFoundErr : GoErr → Bool
  | .notFound => true
  | _ => false

/-- Modelled from the spec: inventory.IsValidShare (validity checker,
"isValid(ShareRecord) -> ok|ExpiredError") is not among the embedded source
files; the record's expiry/cancellation state is abstracted into the boolean
field expired, and the checker returns the expiry error exactly on records
in that state. -/
def IsValidShare (s : ShareRec) : Option GoErr :=
  if s.expired then some .expiredShare else none

/-- Embeds isShareUnlocked from src/unnamed/part_002 (the identical copy in
src/service/share/visit.go is the same function): no stored password means
unlocked; otherwise an exact password match or a viewer who is the share
owner unlocks it. -/
def isShareUnlocked (share : ShareRec) (password : String) (viewer : Option ShareUser) : Bool :=
  if share.password = "" then true
  else if password = share.password then true
  else
    match viewer, share.user with
    | some v, some o => o.id = v.id
    | _, _ => false

/-- The four-valued status produced by the share status resolver
(LoadStatus in src/unnamed/part_002). -/
inductive LoadStatus where
  | ok
  | notFound
  | expired
  | error
  deriving DecidableEq, Repr

/-- Embeds LoadShareForInfo from src/unnamed/part_002.  The store call
GetByID (with the user and file associations eager-loaded) is a collaborator;
its outcome for the requested id is the first argument. -/
def LoadShareForInfo (storeResult : Except GoErr ShareRec) (viewer : Option ShareUser)
    (password : String) : Option ShareRec × Bool × LoadStatus × Option GoErr :=
  match storeResult with
  | .error e =>
    if isNotFoundErr e then (none, false, .notFound, none)
    else (none, false, .error, some e)
  | .ok share =>
    match IsValidShare share with
    | some e => (some share, false, .expired, some e)
    | none => (some share, isShareUnlocked share password viewer, .ok, none)

/-- C2: with an empty stored password the share is always unlocked; with a
non-empty stored password it is unlocked exactly when the supplied string
equals the stored password or the viewer is the share owner, and locked for
every other supplied string (including the empty one). -/
theorem share_unlock_spec (share : ShareRec) (password : String) (viewer : Option ShareUser) :
    (share.password = "" → isShareUnlocked share password viewer = true) ∧
    (share.password ≠ "" →
      (isShareUnlocked share password viewer = true ↔
        password = share.password ∨
          ∃ v o, viewer = some v ∧ share.user = some o ∧ o.id = v.id)) := by
  constructor
  · intro h
    simp [isShareUnlocked, h]
  · intro h
    unfold isShareUnlocked
    rw [if_neg h]
    by_cases hp : password = share.password
    · simp [hp]
    · rw [if_neg hp]
      constructor
      · intro hm
        rcases viewer with _ | v
        · rcases hu : share.user with _ | o <;> rw [hu] at hm <;> simp at hm
        · rcases hu : share.user with _ | o
          · rw [hu] at hm
            simp at hm
          · rw [hu] at hm
            simp only [decide_eq_true_eq] at hm
            exact Or.inr ⟨v, o, rfl, rfl, hm⟩
      · intro hm
        rcases hm with hm | ⟨v, o, hv, hu, hid⟩
        · exact absurd hm hp
        · subst hv
          rw [hu]
          simp [hid]

/-- C2 witness. -/
theorem share_unlock_spec_witness :
    isShareUnlocked ⟨"", true, none, none⟩ "anything" none = true ∧
    (isShareUnlocked ⟨"pw", false, none, none⟩ "" none = true ↔
      ("" : String) = "pw" ∨
        ∃ v o, (none : Option ShareUser) = some v ∧
          (none : Option ShareUser) = some o ∧ o.id = v.id) :=
  ⟨(share_unlock_spec ⟨"", true, none, none⟩ "anything" none).1 rfl,
   (share_unlock_spec ⟨"pw", false, none, none⟩ "" none).2 (by decide)⟩

/-- C7: the status resolver yields exactly one classification per attempt:
a store not-found report gives (nil record, locked, NotFound, nil error); any
other store failure gives Error with the cause retained; a record failing the
validity check gives Expired with the record retained and the validity error;
otherwise OK with the computed lock state. -/
theorem load_share_status_spec (storeResult : Except GoErr ShareRec)
    (viewer : Option ShareUser) (password : String) :
    (∀ e, storeResult = .error e → isNotFoundErr e = true →
      LoadShareForInfo storeResult viewer password = (none, false, .notFound, none)) ∧
    (∀ e, storeResult = .error e → isNotFoundErr e = false →
      LoadShareForInfo storeResult viewer password = (none, false, .error, some e)) ∧
    (∀ share e, storeResult = .ok share → IsValidShare share = some e →
      LoadShareForInfo storeResult viewer password = (some share, false, .expired, some e)) ∧
    (∀ share, storeResult = .ok share → IsValidShare share = none →
      LoadShareForInfo storeResult viewer password =
        (some share, isShareUnlocked share password viewer, .ok, none)) := by
  refine ⟨?_, ?_, ?_, ?_⟩
  · intro e he hnf
    subst he
    simp [LoadShareForInfo, hnf]
  · intro e he hnf
    subst he
    simp [LoadShareForInfo, hnf]
  · intro share e he hv
    subst he
    simp [LoadShareForInfo, hv]
  · intro share he hv
    subst he
    simp [LoadShareForInfo, hv]

/-- C7 witness. -/
theorem load_share_status_spec_witness :
    LoadShareForInfo (.error .notFound) none "" = (none, false, .notFound, none) ∧
    LoadShareForInfo (.error (.other 5)) none "" = (none, false, .error, some (.other 5)) ∧
    LoadShareForInfo (.ok ⟨"", true, none, none⟩) none "" =
      (some ⟨"", true, none, none⟩, false, .expired, some .expiredShare) ∧
    LoadShareForInfo (.ok ⟨"", false, none, none⟩) none "" =
      (some ⟨"", false, none, none⟩,
        isShareUnlocked ⟨"", false, none, none⟩ "" none, .ok, none) :=
  ⟨(load_share_status_spec (.error .notFound) none "").1 .notFound rfl rfl,
   (load_share_status_spec (.error (.other 5)) none "").2.1 (.other 5) rfl rfl,
   (load_share_status_spec (.ok ⟨"", true, none, none⟩) none "").2.2.1
     ⟨"", true, none, none⟩ .expiredShare rfl rfl,
   (load_share_status_spec (.ok ⟨"", false, none, none⟩) none "").2.2.2
     ⟨"", false, none, none⟩ rfl rfl⟩

/-! ## Human-readable size formatting (src/unnamed/part_005)

FormatFileSize formats float64(size)/unit with Go's "%.2f" verb.  In every
branch the unit is a power of two, so for sizes below 2^53 the float64
conversion and the division are exact, and "%.2f" rounds the exact rational
value to hundredths with ties to even (Go strconv fixed-precision
formatting); fmtFixed2 reproduces that rounding with integer arithmetic. -/

/-- Round n/d to the nearest integer, ties to even (the rounding performed by
Go's fixed-precision float formatting on exactly-representable values). -/
def roundHalfEven (n d : Nat) : Nat :=
  let q := n / d
  let r := n % d
  if 2 * r > d then q + 1
  else if 2 * r < d then q
  else if q % 2 = 0 then q else q + 1

/-- Two-digit zero-padded decimal fraction. -/
def pad2 (n : Nat) : String :=
  if n < 10 then "0" ++ toString n else toString n

/-- The "%.2f" rendering of size/unit. -/
def fmtFixed2 (size : Int) (unit : Nat) : String :=
  let h := roundHalfEven (100 * size.toNat) unit
  toString (h / 100) ++ "." ++ pad2 (h % 100)

/-- Embeds FormatFileSize from src/unnamed/part_005: binary 1024-based units,
two decimals at or above one KB, plain integer byte count below. -/
def FormatFileSize (size : Int) : String :=
  if size ≥ 1099511627776 then fmtFixed2 size 1099511627776 ++ " TB"
  else if size ≥ 1073741824 then fmtFixed2 size 1073741824 ++ " GB"
  else if size ≥ 1048576 then fmtFixed2 size 1048576 ++ " MB"
  else if size ≥ 1024 then fmtFixed2 size 1024 ++ " KB"
  else toString size ++ " B"

theorem pad2_length (m : Nat) (hm : m < 100) : (pad2 m).length = 2 := by
  revert hm
  revert m
  decide

/-- C9: byte counts below 1024 render as the plain integer with unit B;
counts in each higher range render in the largest applicable binary unit with
an integer part, a dot, and exactly two fractional digits; and the three
concrete values from the spec evaluate as stated. -/
theorem format_file_size_spec :
    (∀ size : Int, 0 ≤ size → size < 1024 →
      FormatFileSize size = toString size ++ " B") ∧
    (∀ size : Int, 1024 ≤ size → size < 1048576 →
      FormatFileSize size = fmtFixed2 size 1024 ++ " KB") ∧
    (∀ size : Int, 1048576 ≤ size → size < 1073741824 →
      FormatFileSize size = fmtFixed2 size 1048576 ++ " MB") ∧
    (∀ size : Int, 1073741824 ≤ size → size < 1099511627776 →
      FormatFileSize size = fmtFixed2 size 1073741824 ++ " GB") ∧
    (∀ size : Int, 1099511627776 ≤ size →
      FormatFileSize size = fmtFixed2 size 1099511627776 ++ " TB") ∧
    (∀ (size : Int) (unit : Nat), ∃ frac : String,
      fmtFixed2 size unit =
        toString (roundHalfEven (100 * size.toNat) unit / 100) ++ "." ++ frac ∧
      frac.length = 2) ∧
    FormatFileSize 0 = "0 B" ∧
    FormatFileSize 1024 = "1.00 KB" ∧
    FormatFileSize 1048576 = "1.00 MB" := by
  refine ⟨?_, ?_, ?_, ?_, ?_, ?_, by decide, by decide, by decide⟩
  · intro size h0 h1
    unfold FormatFileSize
    rw [if_neg (by omega), if_neg (by omega), if_neg (by omega), if_neg (by omega)]
  · intro size h0 h1
    unfold FormatFileSize
    rw [if_neg (by omega), if_neg (by omega), if_neg (by omega), if_pos (by omega)]
  · intro size h0 h1
    unfold FormatFileSize
    rw [if_neg (by omega), if_neg (by omega), if_pos (by omega)]
  · intro size h0 h1
    unfold FormatFileSize
    rw [if_neg (by omega), if_pos (by omega)]
  · intro size h0
    unfold FormatFileSize
    rw [if_pos (by omega)]
  · intro size unit
    exact ⟨pad2 (roundHalfEven (100 * size.toNat) unit % 100), rfl,
      pad2_length _ (Nat.mod_lt _ (by norm_num))⟩

/-- C9 witness. -/
theorem format_file_size_spec_witness :
    FormatFileSize 500 = toString (500 : Int) ++ " B" ∧
    FormatFileSize 2048 = fmtFixed2 2048 1024 ++ " KB" ∧
    FormatFileSize 3145728 = fmtFixed2 3145728 1048576 ++ " MB" ∧
    FormatFileSize 2147483648 = fmtFixed2 2147483648 1073741824 ++ " GB" ∧
    FormatFileSize 2199023255552 = fmtFixed2 2199023255552 1099511627776 ++ " TB" :=
  ⟨format_file_size_spec.1 500 (by decide) (by decide),
   format_file_size_spec.2.1 2048 (by decide) (by decide),
   format_file_size_spec.2.2.1 3145728 (by decide) (by decide),
   format_file_size_spec.2.2.2.1 2147483648 (by decide) (by decide),
   format_file_size_spec.2.2.2.2.1 2199023255552 (by decide)⟩

/-! ## Query values and the redirect URL builder (src/unnamed/part_002)

Go url.Values is a map from query key to an ordered list of values; it is
modelled as an association list with at most one entry per key (Go maps keep
unique keys), and every operation touches the first entry carrying the key,
matching the map semantics.  The routes.MasterShareLongUrl collaborator is
outside the embedded sources, so the builder takes it as a parameter. -/

abbrev Values := List (String × List String)

/-- Go map indexing q[k] (nil slice for an absent key). -/
def valuesGet : Values → String → List String
  | [], _ => []
  | e :: rest, k => if e.1 = k then e.2 else valuesGet rest k

/-- Embeds url.Values.Get: the first value for the key, or the empty string. -/
def valuesGetFirst (q : Values) (k : String) : String :=
  match valuesGet q k with
  | [] => ""
  | v :: _ => v

/-- Embeds url.Values.Set: replace the key's values with the single value. -/
def valuesSet : Values → String → String → Values
  | [], k, v => [(k, [v])]
  | e :: rest, k, v => if e.1 = k then (k, [v]) :: rest else e :: valuesSet rest k v

/-- Embeds url.Values.Del: remove the key. -/
def valuesDel (q : Values) (k : String) : Values :=
  q.filter (fun e => !(e.1 == k))

/-- Embeds q[k] = append(q[k], vs...): extend the key's values, creating the
entry when absent. -/
def valuesAppend : Values → String → List String → Values
  | [], k, vs => [(k, vs)]
  | e :: rest, k, vs =>
    if e.1 = k then (e.1, e.2 ++ vs) :: rest else e :: valuesAppend rest k vs

/-- UTF-8 bytes of one character (RFC 3629 arithmetic). -/
def utf8Bytes (c : Char) : List Nat :=
  let n := c.toNat
  if n < 128 then [n]
  else if n < 2048 then [192 + n / 64, 128 + n % 64]
  else if n < 65536 then [224 + n / 4096, 128 + (n / 64) % 64, 128 + n % 64]
  else [240 + n / 262144, 128 + (n / 4096) % 64, 128 + (n / 64) % 64, 128 + n % 64]

/-- UTF-8 bytes of a string (Go strings are byte strings). -/
def strUTF8 (s : String) : List Nat :=
  s.data.flatMap utf8Bytes

/-- Bytes kept verbatim by Go url.QueryEscape: alphanumerics and - _ . ~ . -/
def isUnreservedQueryByte (b : Nat) : Bool :=
  decide ((65 ≤ b ∧ b ≤ 90) ∨ (97 ≤ b ∧ b ≤ 122) ∨ (48 ≤ b ∧ b ≤ 57) ∨
    b = 45 ∨ b = 95 ∨ b = 46 ∨ b = 126)

def hexUpperDigit (n : Nat) : Char :=
  "0123456789ABCDEF".data.getD n '0'

/-- Escape one byte the way Go url.QueryEscape does: unreserved bytes stay,
a space becomes a plus, everything else becomes an uppercase percent escape. -/
def escapeQueryByte (b : Nat) : List Char :=
  if isUnreservedQueryByte b then [Char.ofNat b]
  else if b = 32 then ['+']
  else ['%', hexUpperDigit (b / 16), hexUpperDigit (b % 16)]

/-- Embeds Go url.QueryEscape. -/
def queryEscape (s : String) : String :=
  ⟨(strUTF8 s).flatMap escapeQueryByte⟩

/-- Byte-lexicographic string order (Go sort.Strings). -/
def bytesLe : List Nat → List Nat → Bool
  | [], _ => true
  | _ :: _, [] => false
  | a :: as, b :: bs => if a < b then true else if b < a then false else bytesLe as bs

def insortEntry (e : String × List String) : Values → Values
  | [] => [e]
  | f :: rest => if bytesLe (strUTF8 e.1) (strUTF8 f.1) then e :: f :: rest
    else f :: insortEntry e rest

/-- Sort the entries by key (url.Values.Encode sorts its keys). -/
def sortEntries (q : Values) : Values :=
  q.foldr insortEntry []

/-- Embeds url.Values.Encode: keys in sorted order, each value escaped and
joined with ampersands. -/
def valuesEncode (q : Values) : String :=
  String.intercalate "&"
    ((sortEntries q).flatMap (fun e => e.2.map (fun v => queryEscape e.1 ++ "=" ++ queryEscape v)))

/-- The slice of net/url.URL the embedded code manipulates: the rendered
URL up to the query, plus the parsed query values. -/
structure GoURL where
  preQuery : String
  query : Values

/-- URL.String() after RawQuery is set to the encoded query. -/
def urlString (u : GoURL) : String :=
  let e := valuesEncode u.query
  u.preQuery ++ (if e = "" then "" else "?" ++ e)

/-- One merge step of the extra-query fold in BuildRedirectURL. -/
def mergeStep (acc : Values) (e : String × List String) : Values :=
  if e.1 = "path" then acc else valuesAppend acc e.1 e.2

/-- The query manipulation inside BuildRedirectURL (src/unnamed/part_002),
applied to the already-sanitized sub-path: append the sub-path to the
template's existing path value, then merge every non-path caller parameter by
appending its values.  Go iterates the caller map in unspecified order; the
fold order is irrelevant because each key's entry is only touched by its own
values. -/
def buildRedirectQuery (longURLQuery : Values) (sharePath : String) (extraQuery : Values) :
    Values :=
  let q :=
    if sharePath ≠ "" then
      valuesSet longURLQuery "path"
        (valuesGetFirst longURLQuery "path" ++ "/" ++ trimOneLeadingSlash sharePath)
    else longURLQuery
  extraQuery.foldl mergeStep q

/-- Embeds BuildRedirectURL from src/unnamed/part_002; the first parameter is
the routes.MasterShareLongUrl collaborator (templated long-form share URL
keyed by id and password). -/
def BuildRedirectURL (masterShareLongUrl : String → String → GoURL)
    (id password sharePath : String) (extraQuery : Values) : String :=
  let sharePath := SanitizeSharePath sharePath
  let shareLongURL := masterShareLongUrl id password
  urlString { shareLongURL with
    query := buildRedirectQuery shareLongURL.query sharePath extraQuery }

/-- All values the caller supplies for key k, except that nothing counts for
the reserved path key. -/
def collectVals (k : String) (extraQuery : Values) : List String :=
  (extraQuery.filter (fun e => e.1 == k)).flatMap (fun e => e.2)

theorem sanitizeSharePath_no_lead (raw : String) :
    (SanitizeSharePath raw).data.head? ≠ some '/' := by
  by_cases hraw : raw = ""
  · simp [hraw, SanitizeSharePath]
  · simp only [SanitizeSharePath, if_neg hraw, pathCleanRooted, trimOneLeadingSlash]
    exact intercalate_head_ne ['/'] _
      (fun s hs => foldl_cleanStep_inv _ [] (by simp)
        (splitSlash_no_slash _) s (List.mem_reverse.1 hs))

theorem trimOneLeadingSlash_of_no_lead (s : String) (h : s.data.head? ≠ some '/') :
    trimOneLeadingSlash s = s := by
  unfold trimOneLeadingSlash
  split
  · next rest heq => exact absurd (by rw [heq]; rfl) h
  · rfl

theorem valuesGet_append_same (q : Values) (k : String) (vs : List String) :
    valuesGet (valuesAppend q k vs) k = valuesGet q k ++ vs := by
  induction q with
  | nil => simp [valuesAppend, valuesGet]
  | cons e rest ih =>
    by_cases he : e.1 = k
    · simp [valuesAppend, valuesGet, he]
    · simp [valuesAppend, valuesGet, he, ih]

theorem valuesGet_append_ne (q : Values) (k' k : String) (vs : List String) (h : k' ≠ k) :
    valuesGet (valuesAppend q k' vs) k = valuesGet q k := by
  induction q with
  | nil => simp [valuesAppend, valuesGet, h]
  | cons e rest ih =>
    by_cases he : e.1 = k'
    · subst he
      simp [valuesAppend, valuesGet, h]
    · simp [valuesAppend, valuesGet, he, ih]

theorem valuesGet_set_ne (q : Values) (k' v k : String) (h : k' ≠ k) :
    valuesGet (valuesSet q k' v) k = valuesGet q k := by
  induction q with
  | nil => simp [valuesSet, valuesGet, h]
  | cons e rest ih =>
    by_cases he : e.1 = k'
    · subst he
      simp [valuesSet, valuesGet, h]
    · simp [valuesSet, valuesGet, he, ih]

theorem valuesGet_set_same (q : Values) (k v : String) :
    valuesGet (valuesSet q k v) k = [v] := by
  induction q with
  | nil => simp [valuesSet, valuesGet]
  | cons e rest ih =>
    by_cases he : e.1 = k
    · simp [valuesSet, valuesGet, he]
    · simp [valuesSet, valuesGet, he, ih]

theorem valuesGet_mergeFold (extraQuery : Values) (q : Values) (k : String) (hk : k ≠ "path") :
    valuesGet (extraQuery.foldl mergeStep q) k = valuesGet q k ++ collectVals k extraQuery := by
  induction extraQuery generalizing q with
  | nil => simp [collectVals]
  | cons e rest ih =>
    rw [List.foldl_cons]
    by_cases hp : e.1 = "path"
    · rw [show mergeStep q e = q from by simp [mergeStep, hp]]
      rw [ih q]
      have : collectVals k (e :: rest) = collectVals k rest := by
        have : (e.1 == k) = false := by
          simp only [beq_eq_false_iff_ne, ne_eq]
          rw [hp]
          exact fun hc => hk hc.symm
        simp [collectVals, List.filter_cons, this]
      rw [this]
    · rw [show mergeStep q e = valuesAppend q e.1 e.2 from by simp [mergeStep, hp]]
      by_cases hek : e.1 = k
      · rw [ih _, hek, valuesGet_append_same]
        have hcol : collectVals k (e :: rest) = e.2 ++ collectVals k rest := by
          simp [collectVals, List.filter_cons, hek]
        rw [hcol, List.append_assoc]
      · rw [ih _, valuesGet_append_ne q e.1 k e.2 hek]
        have : collectVals k (e :: rest) = collectVals k rest := by
          simp [collectVals, List.filter_cons, hek]
        rw [this]

theorem valuesGet_mergeFold_path (extraQuery : Values) (q : Values) :
    valuesGet (extraQuery.foldl mergeStep q) "path" = valuesGet q "path" := by
  induction extraQuery generalizing q with
  | nil => rfl
  | cons e rest ih =>
    rw [List.foldl_cons]
    by_cases hp : e.1 = "path"
    · rw [show mergeStep q e = q from by simp [mergeStep, hp]]
      exact ih q
    · rw [show mergeStep q e = valuesAppend q e.1 e.2 from by simp [mergeStep, hp]]
      rw [ih _, valuesGet_append_ne q e.1 "path" e.2 hp]

/-- C4: for every long-form template URL and caller query set, the built
redirect URL keeps every value of every non-path caller parameter by
appending it to the template's existing values for that key; the caller's
reserved path key is never forwarded (even when empty); and a non-empty
sanitized sub-path is appended to the template's existing path value after a
single separator instead of replacing it. -/
theorem redirect_url_merge_spec (masterShareLongUrl : String → String → GoURL)
    (id password rawPath : String) (extraQuery : Values) :
    BuildRedirectURL masterShareLongUrl id password rawPath extraQuery =
      urlString { masterShareLongUrl id password with
        query := buildRedirectQuery (masterShareLongUrl id password).query
          (SanitizeSharePath rawPath) extraQuery } ∧
    (∀ k, k ≠ "path" →
      valuesGet (buildRedirectQuery (masterShareLongUrl id password).query
          (SanitizeSharePath rawPath) extraQuery) k =
        valuesGet (masterShareLongUrl id password).query k ++ collectVals k extraQuery) ∧
    (SanitizeSharePath rawPath = "" →
      valuesGet (buildRedirectQuery (masterShareLongUrl id password).query
          (SanitizeSharePath rawPath) extraQuery) "path" =
        valuesGet (masterShareLongUrl id password).query "path") ∧
    (SanitizeSharePath rawPath ≠ "" →
      valuesGet (buildRedirectQuery (masterShareLongUrl id password).query
          (SanitizeSharePath rawPath) extraQuery) "path" =
        [valuesGetFirst (masterShareLongUrl id password).query "path" ++ "/" ++
          SanitizeSharePath rawPath]) := by
  set tq := (masterShareLongUrl id password).query with htq
  refine ⟨rfl, ?_, ?_, ?_⟩
  · intro k hk
    unfold buildRedirectQuery
    by_cases hsp : SanitizeSharePath rawPath = ""
    · rw [if_neg (by simp [hsp])]
      exact valuesGet_mergeFold extraQuery tq k hk
    · rw [if_pos hsp]
      rw [valuesGet_mergeFold extraQuery _ k hk]
      rw [valuesGet_set_ne tq "path" _ k (fun h => hk h.symm)]
  · intro hsp
    unfold buildRedirectQuery
    rw [if_neg (by simp [hsp])]
    exact valuesGet_mergeFold_path extraQuery tq
  · intro hsp
    unfold buildRedirectQuery
    rw [if_pos hsp]
    rw [valuesGet_mergeFold_path extraQuery _]
    rw [valuesGet_set_same tq "path" _]
    rw [trimOneLeadingSlash_of_no_lead _ (sanitizeSharePath_no_lead rawPath)]

/-- C4 witness: the multi-valued parameter tag=a&tag=b survives intact and
sub-path x is appended to the template's existing path value. -/
theorem redirect_url_merge_spec_witness :
    valuesGet
      (buildRedirectQuery [("path", ["tpl"])] (SanitizeSharePath "x")
        [("tag", ["a", "b"]), ("path", [""])]) "tag" =
      valuesGet [("path", ["tpl"])] "tag" ++
        collectVals "tag" [("tag", ["a", "b"]), ("path", [""])] ∧
    valuesGet
      (buildRedirectQuery [("path", ["tpl"])] (SanitizeSharePath "x")
        [("tag", ["a", "b"]), ("path", [""])]) "path" =
      [valuesGetFirst [("path", ["tpl"])] "path" ++ "/" ++ SanitizeSharePath "x"] :=
  ⟨((redirect_url_merge_spec (fun _ _ => ⟨"base", [("path", ["tpl"])]⟩) "i" "p" "x"
      [("tag", ["a", "b"]), ("path", [""])]).2.1 "tag" (by decide)),
   ((redirect_url_merge_spec (fun _ _ => ⟨"base", [("path", ["tpl"])]⟩) "i" "p" "x"
      [("tag", ["a", "b"]), ("path", [""])]).2.2.2 (by decide))⟩

/-! ## Open-Graph template rendering (src/unnamed/part_005)

The renderer substitutes bracket-delimited magic variables (regexp
ogMagicVarRe), collapses separator glyphs next to an empty owner name
(regexp ogOwnerSeparatorRe with ReplaceAllString, then TrimSpace / Trim), and
instantiates a fixed HTML template through Go html/template.  Both regexps
are embedded by their leftmost-first matching semantics: ogMagicVarRe matches
an opening brace, one or more non-brace characters, and a closing brace;
ogOwnerSeparatorRe matches optional whitespace, a middle dot, optional
whitespace, one or more consecutive middle dots, and optional whitespace. -/

/-- RE2 character class backslash-s: tab, newline, form feed, carriage
return, space. -/
def isRegexSpace (c : Char) : Bool :=
  decide (c = '\t' ∨ c = '\n' ∨ c = '\x0c' ∨ c = '\r' ∨ c = ' ')

/-- Go unicode.IsSpace (the class trimmed by strings.TrimSpace). -/
def isGoSpace (c : Char) : Bool :=
  let n := c.toNat
  decide (n = 9 ∨ n = 10 ∨ n = 11 ∨ n = 12 ∨ n = 13 ∨ n = 32 ∨ n = 133 ∨ n = 160 ∨
    n = 5760 ∨ (8192 ≤ n ∧ n ≤ 8202) ∨ n = 8232 ∨ n = 8233 ∨ n = 8239 ∨ n = 8287 ∨
    n = 12288)

/-- Embeds strings.TrimSpace. -/
def goTrimSpace (s : String) : String :=
  ⟨((s.data.dropWhile isGoSpace).reverse.dropWhile isGoSpace).reverse⟩

/-- Embeds strings.Trim(s, "·"): strip middle dots from both ends. -/
def goTrimMiddot (s : String) : String :=
  ⟨((s.data.dropWhile (fun c => c = '·')).reverse.dropWhile (fun c => c = '·')).reverse⟩

/-- Match the separator regexp at the head of the list; on success return the
remainder after the match.  With its greedy quantifiers and leftmost-first
semantics the regexp consumes: leading regex whitespace, a middle dot,
regex whitespace, a maximal run of one or more middle dots, and trailing
regex whitespace. -/
def sepMatch (l : List Char) : Option (List Char) :=
  match l.dropWhile isRegexSpace with
  | '·' :: l2 =>
    match l2.dropWhile isRegexSpace with
    | '·' :: l4 => some ((l4.dropWhile (fun c => c = '·')).dropWhile isRegexSpace)
    | _ => none
  | _ => none

theorem length_dropWhile_le' (p : Char → Bool) (l : List Char) :
    (l.dropWhile p).length ≤ l.length := by
  induction l with
  | nil => simp
  | cons a t ih =>
    rw [List.dropWhile_cons]
    split
    · exact Nat.le_succ_of_le ih
    · simp

theorem sepMatch_length (l rem : List Char) (h : sepMatch l = some rem) :
    rem.length < l.length := by
  unfold sepMatch at h
  split at h
  · next l2 heq1 =>
    split at h
    · next l4 heq2 =>
      have h0 : rem = (l4.dropWhile (fun c => c = '·')).dropWhile isRegexSpace := by
        injection h with h
        exact h.symm
      have h1 : rem.length ≤ l4.length := by
        rw [h0]
        calc ((l4.dropWhile (fun c => c = '·')).dropWhile isRegexSpace).length
            ≤ (l4.dropWhile (fun c => c = '·')).length := length_dropWhile_le' _ _
          _ ≤ l4.length := length_dropWhile_le' _ _
      have h2 : l4.length + 1 ≤ l2.length := by
        have := length_dropWhile_le' isRegexSpace l2
        rw [heq2] at this
        simpa using this
      have h3 : l2.length + 1 ≤ l.length := by
        have := length_dropWhile_le' isRegexSpace l
        rw [heq1] at this
        simpa using this
      omega
    · exact absurd h (by simp)
  · exact absurd h (by simp)

/-- The scan of ogOwnerSeparatorRe.ReplaceAllString, with explicit fuel
(any fuel at least the list length gives the same result, and the wrapper
below passes the length) so that the definition stays structurally recursive
and kernel-evaluable. -/
def sepReplaceAux : Nat → List Char → List Char
  | 0, l => l
  | _, [] => []
  | fuel + 1, c :: rest =>
    match sepMatch (c :: rest) with
    | some rem => ' ' :: '·' :: ' ' :: sepReplaceAux fuel rem
    | none => c :: sepReplaceAux fuel rest

/-- Embeds ogOwnerSeparatorRe.ReplaceAllString(s, " · "): scan left to right,
replace each leftmost non-overlapping match by a spaced single separator, and
resume after the replaced text. -/
def sepReplace (l : List Char) : List Char :=
  sepReplaceAux l.length l

theorem sepReplaceAux_congr (fuel₁ : Nat) : ∀ (fuel₂ : Nat) (l : List Char),
    l.length ≤ fuel₁ → l.length ≤ fuel₂ → sepReplaceAux fuel₁ l = sepReplaceAux fuel₂ l := by
  induction fuel₁ with
  | zero =>
    intro fuel₂ l h₁ h₂
    have hl : l = [] := List.length_eq_zero.1 (Nat.le_zero.1 h₁)
    subst hl
    cases fuel₂ <;> rfl
  | succ f ih =>
    intro fuel₂ l h₁ h₂
    cases l with
    | nil => cases fuel₂ <;> rfl
    | cons c rest =>
      cases fuel₂ with
      | zero => simp at h₂
      | succ f₂ =>
        show (match sepMatch (c :: rest) with
          | some rem => ' ' :: '·' :: ' ' :: sepReplaceAux f rem
          | none => c :: sepReplaceAux f rest) =
          (match sepMatch (c :: rest) with
          | some rem => ' ' :: '·' :: ' ' :: sepReplaceAux f₂ rem
          | none => c :: sepReplaceAux f₂ rest)
        rcases hm : sepMatch (c :: rest) with _ | rem
        · simp only []
          rw [ih f₂ rest (by simpa using Nat.lt_succ.1 (Nat.lt_of_lt_of_le (by simp) h₁))
            (by simpa using Nat.lt_succ.1 (Nat.lt_of_lt_of_le (by simp) h₂))]
        · have hlen := sepMatch_length _ _ hm
          simp only [List.length_cons] at hlen h₁ h₂
          simp only []
          rw [ih f₂ rem (by omega) (by omega)]

theorem sepReplace_nil : sepReplace [] = [] := rfl

theorem sepReplace_cons (c : Char) (rest : List Char) :
    sepReplace (c :: rest) =
      match sepMatch (c :: rest) with
      | some rem => ' ' :: '·' :: ' ' :: sepReplace rem
      | none => c :: sepReplace rest := by
  show (match sepMatch (c :: rest) with
    | some rem => ' ' :: '·' :: ' ' :: sepReplaceAux rest.length rem
    | none => c :: sepReplaceAux rest.length rest) = _
  rcases hm : sepMatch (c :: rest) with _ | rem
  · rfl
  · have hlen := sepMatch_length _ _ hm
    simp only [List.length_cons] at hlen
    simp only []
    rw [sepReplaceAux_congr rest.length rem.length rem (by omega) (by omega)]
    rfl

/-- Characters allowed inside a magic-variable token. -/
def notBrace (c : Char) : Bool :=
  decide (c ≠ '{' ∧ c ≠ '}')

/-- After an opening brace: the regexp needs one or more non-brace characters
followed by a closing brace.  Returns the token body and the remainder. -/
def magicToken (l : List Char) : Option (List Char × List Char) :=
  if l.takeWhile notBrace = [] then none
  else
    match l.dropWhile notBrace with
    | '}' :: rest => some (l.takeWhile notBrace, rest)
    | _ => none

theorem magicToken_length (t inner rest : List Char)
    (h : magicToken t = some (inner, rest)) : rest.length < t.length := by
  unfold magicToken at h
  split at h
  · exact absurd h (by simp)
  · split at h
    · next rest2 heq =>
      rw [Option.some.injEq, Prod.mk.injEq] at h
      obtain ⟨h1, h2⟩ := h
      subst h2
      have hle := length_dropWhile_le' notBrace t
      rw [heq] at hle
      simp only [List.length_cons] at hle
      omega
    · exact absurd h (by simp)

/-- The scan of ogMagicVarRe.ReplaceAllStringFunc, with explicit fuel (any
fuel at least the list length gives the same result; the wrapper passes the
length) so that the definition stays structurally recursive and
kernel-evaluable. -/
def replaceMagicAux (vars : List (String × String)) : Nat → List Char → List Char
  | 0, l => l
  | _, [] => []
  | fuel + 1, '{' :: rest =>
    (match magicToken rest with
     | some (inner, rest2) =>
       (match vars.lookup ⟨'{' :: (inner ++ ['}'])⟩ with
        | some v => v.data
        | none => '{' :: (inner ++ ['}'])) ++ replaceMagicAux vars fuel rest2
     | none => '{' :: replaceMagicAux vars fuel rest)
  | fuel + 1, c :: rest => c :: replaceMagicAux vars fuel rest

/-- Embeds ogMagicVarRe.ReplaceAllStringFunc with the lookup into the magic
variable table: a known token is replaced by its value, an unknown token is
kept verbatim; replacement values are never re-scanned. -/
def replaceMagic (vars : List (String × String)) (l : List Char) : List Char :=
  replaceMagicAux vars l.length l

/-- Embeds strings.Contains. -/
def isPrefixOfList : List Char → List Char → Bool
  | [], _ => true
  | _ :: _, [] => false
  | a :: as, b :: bs => a == b && isPrefixOfList as bs

def containsList : List Char → List Char → Bool
  | hay, needle =>
    match hay with
    | [] => isPrefixOfList needle []
    | _ :: rest => isPrefixOfList needle hay || containsList rest needle

def goContains (s sub : String) : Bool :=
  containsList s.data sub.data

/-- Embeds trimEmptyOwnerSeparator from src/unnamed/part_005: only active for
an empty owner name on a template carrying the owner token; trims whitespace,
collapses separator runs via the regexp, trims whitespace, strips boundary
middle dots, and trims whitespace once more. -/
def trimEmptyOwnerSeparator (tmpl rendered ownerName : String) : String :=
  if ownerName ≠ "" ∨ goContains tmpl "{owner_name}" = false then rendered
  else
    goTrimSpace (goTrimMiddot (goTrimSpace ⟨sepReplace (goTrimSpace rendered).data⟩))

/-- Embeds replaceOGMagicVars from src/unnamed/part_005. -/
def replaceOGMagicVars (tmpl : String) (vars : List (String × String))
    (ownerName : String) (trimOwner : Bool) : String :=
  let rendered : String := ⟨replaceMagic vars tmpl.data⟩
  if trimOwner then trimEmptyOwnerSeparator tmpl rendered ownerName else rendered

/-- The rendering input assembled for the Open-Graph page
(ShareOGData in src/unnamed/part_005); absent fields hold the Go zero
value, the empty string. -/
structure ShareOGData where
  siteName : String := ""
  siteDescription : String := ""
  siteURL : String := ""
  shareURL : String := ""
  shareID : String := ""
  fileName : String := ""
  fileSize : String := ""
  fileExt : String := ""
  folderName : String := ""
  ownerName : String := ""
  status : String := ""
  title : String := ""
  description : String := ""
  displayName : String := ""
  thumbnailURL : String := ""
  redirectURL : String := ""
  deriving DecidableEq, Repr

/-- Template constants from src/unnamed/part_005. -/
def ogFileTitleTemplate : String := "{file_name}"

def ogFileDescTemplate : String := "{file_size} · {owner_name}"

def ogFolderTitleTemplate : String := "{folder_name}"

def ogFolderDescTemplate : String := "Folder · {owner_name}"

def ogStatusTitleTemplate : String := "{site_name}"

def ogStatusDescTemplate : String := "{status}"

/-- The magic-variable table of replaceOGFileMagicVars. -/
def ogFileVars (d : ShareOGData) : List (String × String) :=
  [("{site_name}", d.siteName), ("{site_description}", d.siteDescription),
   ("{site_url}", d.siteURL), ("{file_name}", d.fileName),
   ("{file_size}", d.fileSize), ("{file_ext}", d.fileExt),
   ("{owner_name}", d.ownerName), ("{share_url}", d.shareURL),
   ("{share_id}", d.shareID)]

/-- The magic-variable table of replaceOGFolderMagicVars. -/
def ogFolderVars (d : ShareOGData) : List (String × String) :=
  [("{site_name}", d.siteName), ("{site_description}", d.siteDescription),
   ("{site_url}", d.siteURL), ("{folder_name}", d.folderName),
   ("{owner_name}", d.ownerName), ("{share_url}", d.shareURL),
   ("{share_id}", d.shareID)]

/-- The magic-variable table of replaceOGStatusMagicVars: site identity and
the status label only, never file metadata. -/
def ogStatusVars (d : ShareOGData) : List (String × String) :=
  [("{site_name}", d.siteName), ("{site_description}", d.siteDescription),
   ("{site_url}", d.siteURL), ("{share_url}", d.shareURL),
   ("{share_id}", d.shareID), ("{status}", d.status)]

def replaceOGFileMagicVars (tmpl : String) (d : ShareOGData) : String :=
  replaceOGMagicVars tmpl (ogFileVars d) d.ownerName true

def replaceOGFolderMagicVars (tmpl : String) (d : ShareOGData) : String :=
  replaceOGMagicVars tmpl (ogFolderVars d) d.ownerName true

def replaceOGStatusMagicVars (tmpl : String) (d : ShareOGData) : String :=
  replaceOGMagicVars tmpl (ogStatusVars d) "" false

/-- Go html/template escaping for HTML text and attribute contexts. -/
def htmlEscapeChar (c : Char) : List Char :=
  if c = '&' then "&amp;".data
  else if c = '\'' then "&#39;".data
  else if c = '<' then "&lt;".data
  else if c = '>' then "&gt;".data
  else if c = '"' then "&#34;".data
  else [c]

def htmlEscape (s : String) : String :=
  ⟨s.data.flatMap htmlEscapeChar⟩

/-- Go html/template escaping for double-quoted JavaScript string context. -/
def jsStrEscapeChar (c : Char) : List Char :=
  if c = '\\' then "\\\\".data
  else if c = '\'' then "\\'".data
  else if c = '"' then "\\\"".data
  else if c = '<' then "\\u003C".data
  else if c = '>' then "\\u003E".data
  else if c = '&' then "\\u0026".data
  else if c = '=' then "\\u003D".data
  else if c = '+' then "\\u002B".data
  else if c = '\n' then "\\n".data
  else if c = '\r' then "\\r".data
  else if c = '\t' then "\\t".data
  else [c]

def jsStrEscape (s : String) : String :=
  ⟨s.data.flatMap jsStrEscapeChar⟩

/-- Embeds the execution of ogTemplate (src/unnamed/part_005) on the render
data, after renderOGHTML replaces the title and description: the fixed HTML
document with each interpolation escaped for its context (html/template
contextual autoescaping, modelled by htmlEscape and jsStrEscape; the URL
filtering html/template additionally applies in URL attribute contexts is not
modelled - no property proved here depends on it). -/
def renderOGHTML (data : ShareOGData) (title description : String) : String :=
  "<!DOCTYPE html>\n<html>\n<head>\n    <meta charset=\"utf-8\">\n    <meta property=\"og:title\" content=\"" ++
  htmlEscape title ++
  "\">\n    <meta property=\"og:description\" content=\"" ++
  htmlEscape description ++
  "\">\n    <meta property=\"og:image\" content=\"" ++
  htmlEscape data.thumbnailURL ++
  "\">\n    <meta property=\"og:url\" content=\"" ++
  htmlEscape data.shareURL ++
  "\">\n    <meta property=\"og:type\" content=\"website\">\n    <meta property=\"og:site_name\" content=\"" ++
  htmlEscape data.siteName ++
  "\">\n    <meta name=\"twitter:card\" content=\"summary\">\n    <meta name=\"twitter:title\" content=\"" ++
  htmlEscape title ++
  "\">\n    <meta name=\"twitter:description\" content=\"" ++
  htmlEscape description ++
  "\">\n    <meta name=\"twitter:image\" content=\"" ++
  htmlEscape data.thumbnailURL ++
  "\">\n    <title>" ++
  htmlEscape title ++ " - " ++ htmlEscape data.siteName ++
  "</title>\n</head>\n<body>\n    <script>window.location.href = \"" ++
  jsStrEscape data.redirectURL ++
  "\";</script>\n    <noscript>\n        <p><a href=\"" ++
  htmlEscape data.redirectURL ++
  "\">" ++
  htmlEscape data.displayName ++
  "</a></p>\n    </noscript>\n</body>\n</html>"

/-- Embeds RenderOGHTML from src/unnamed/part_005 (file shares). -/
def RenderOGHTML (data : ShareOGData) (titleTemplate descTemplate : String) : String :=
  renderOGHTML data (replaceOGFileMagicVars titleTemplate data)
    (replaceOGFileMagicVars descTemplate data)

/-- Embeds RenderFolderOGHTML from src/unnamed/part_005 (folder shares). -/
def RenderFolderOGHTML (data : ShareOGData) (titleTemplate descTemplate : String) : String :=
  renderOGHTML data (replaceOGFolderMagicVars titleTemplate data)
    (replaceOGFolderMagicVars descTemplate data)

/-- Embeds RenderStatusOGHTML from src/unnamed/part_005 (status scenarios). -/
def RenderStatusOGHTML (data : ShareOGData) (titleTemplate descTemplate : String) : String :=
  renderOGHTML data (replaceOGStatusMagicVars titleTemplate data)
    (replaceOGStatusMagicVars descTemplate data)

theorem sepMatch_two_middots (l rem : List Char) (h : sepMatch l = some rem) :
    2 ≤ l.count '·' := by
  unfold sepMatch at h
  split at h
  · next l2 heq1 =>
    split at h
    · next l4 heq2 =>
      have s1 : List.count '·' ('·' :: l2) ≤ l.count '·' := by
        rw [← heq1]
        exact (List.dropWhile_sublist _).count_le '·'
      have s2 : List.count '·' ('·' :: l4) ≤ l2.count '·' := by
        rw [← heq2]
        exact (List.dropWhile_sublist _).count_le '·'
      simp only [List.count_cons] at s1 s2
      simp at s1 s2
      omega
    · exact absurd h (by simp)
  · exact absurd h (by simp)

theorem sepReplace_of_count_lt (l : List Char) (h : l.count '·' < 2) :
    sepReplace l = l := by
  induction l with
  | nil => rfl
  | cons c rest ih =>
    rw [sepReplace_cons]
    rcases hm : sepMatch (c :: rest) with _ | rem
    · simp only []
      rw [ih (Nat.lt_of_le_of_lt (List.count_le_count_cons '·' c rest) h)]
    · exact absurd (sepMatch_two_middots _ _ hm) (by omega)

theorem dropWhile_append_pos {p : Char → Bool} {l : List Char} (r : List Char)
    {c : Char} {t2 : List Char} (h : l.dropWhile p = c :: t2) :
    (l ++ r).dropWhile p = c :: t2 ++ r := by
  rw [List.dropWhile_append, h]
  simp

theorem dropWhile_append_empty {p : Char → Bool} {l : List Char} (r : List Char)
    (h : l.dropWhile p = []) :
    (l ++ r).dropWhile p = r.dropWhile p := by
  rw [List.dropWhile_append, h]
  simp

theorem dropWhile_head_false {p : Char → Bool} {l : List Char} {c : Char} {t2 : List Char}
    (h : l.dropWhile p = c :: t2) : p c = false := by
  induction l with
  | nil => simp at h
  | cons a rest ih =>
    rw [List.dropWhile_cons] at h
    split at h
    · exact ih h
    · next hpa =>
      injection h with h1 h2
      subst h1
      simpa using hpa

theorem trim_owner_pipeline (s : String) (hns : '·' ∉ s.data) :
    goTrimSpace (goTrimMiddot (goTrimSpace ⟨sepReplace
      (goTrimSpace ⟨s.data ++ [' ', '·', ' ']⟩).data⟩)) = goTrimSpace s := by
  rcases hB : s.data.dropWhile isGoSpace with _ | ⟨c, t2⟩
  · -- the size string is all whitespace: everything cancels to the empty string
    have h1 : goTrimSpace ⟨s.data ++ [' ', '·', ' ']⟩ = ⟨['·']⟩ := by
      simp only [goTrimSpace]
      rw [dropWhile_append_empty _ hB]
      rfl
    rw [h1]
    rw [show sepReplace (⟨['·']⟩ : String).data = ['·'] from by decide]
    rw [show goTrimSpace ⟨['·']⟩ = ⟨['·']⟩ from by decide]
    rw [show goTrimMiddot ⟨['·']⟩ = ⟨[]⟩ from by decide]
    rw [show goTrimSpace ⟨[]⟩ = ⟨[]⟩ from by decide]
    simp only [goTrimSpace]
    rw [hB]
    rfl
  · have hc : isGoSpace c = false := dropWhile_head_false hB
    have hsub : (c :: t2).Sublist s.data := hB ▸ List.dropWhile_sublist isGoSpace
    have hmem : '·' ∉ c :: t2 := fun hm => hns (hsub.mem hm)
    have hcm : ¬ c = '·' := fun hcc => hmem (hcc ▸ List.mem_cons_self c t2)
    have h1 : goTrimSpace ⟨s.data ++ [' ', '·', ' ']⟩ = ⟨c :: (t2 ++ [' ', '·'])⟩ := by
      simp only [goTrimSpace]
      rw [dropWhile_append_pos _ hB]
      rw [show (c :: t2 ++ [' ', '·', ' ']).reverse =
        ' ' :: '·' :: ' ' :: (c :: t2).reverse from by simp]
      rw [List.dropWhile_cons, if_pos (by decide)]
      rw [List.dropWhile_cons, if_neg (by decide)]
      simp
    rw [h1]
    have h2 : sepReplace (⟨c :: (t2 ++ [' ', '·'])⟩ : String).data = c :: (t2 ++ [' ', '·']) := by
      apply sepReplace_of_count_lt
      rw [show (⟨c :: (t2 ++ [' ', '·'])⟩ : String).data = (c :: t2) ++ [' ', '·'] from rfl]
      rw [List.count_append]
      rw [List.count_eq_zero.2 hmem]
      decide
    rw [h2]
    have h3 : goTrimSpace ⟨c :: (t2 ++ [' ', '·'])⟩ = ⟨c :: (t2 ++ [' ', '·'])⟩ := by
      simp only [goTrimSpace]
      rw [List.dropWhile_cons, if_neg (by simp [hc])]
      rw [show (c :: (t2 ++ [' ', '·'])).reverse = '·' :: ' ' :: (c :: t2).reverse from by simp]
      rw [List.dropWhile_cons, if_neg (by decide)]
      simp
    rw [h3]
    have h4 : goTrimMiddot ⟨c :: (t2 ++ [' ', '·'])⟩ = ⟨c :: (t2 ++ [' '])⟩ := by
      simp only [goTrimMiddot]
      rw [List.dropWhile_cons, if_neg (by simp [hcm])]
      rw [show (c :: (t2 ++ [' ', '·'])).reverse = '·' :: ' ' :: (c :: t2).reverse from by simp]
      rw [List.dropWhile_cons, if_pos (by decide)]
      rw [List.dropWhile_cons, if_neg (by decide)]
      simp
    rw [h4]
    have h5 : goTrimSpace ⟨c :: (t2 ++ [' '])⟩ =
        ⟨((c :: t2).reverse.dropWhile isGoSpace).reverse⟩ := by
      simp only [goTrimSpace]
      rw [List.dropWhile_cons, if_neg (by simp [hc])]
      rw [show (c :: (t2 ++ [' '])).reverse = ' ' :: (c :: t2).reverse from by simp]
      rw [List.dropWhile_cons, if_pos (by decide)]
    rw [h5]
    simp only [goTrimSpace]
    rw [hB]

/-- C8 counterexample: on the template "x · · · {owner_name}" with an empty
owner name the rendered text keeps a dangling trailing separator glyph, so
the claimed collapse/trim of all separators does not hold as stated.  (The
replacement scan consumes "space dot space dot space" of the three
whitespace-separated dots, resumes after the replacement, and the final
single trim pass leaves "x ·".) -/
theorem owner_separator_counterexample :
    replaceOGFileMagicVars "x · · · {owner_name}" { ownerName := "" } = "x ·" ∧
    ("x ·").data.getLast? = some '·' := by
  constructor
  · decide
  · decide

/-- C8 (amended): with the owner-name placeholder present and an empty owner
name, the shipped description template "{file_size} · {owner_name}" renders
any separator-free file-size value with its single dangling separator removed
and surrounding whitespace trimmed (in particular "1.00 MB" renders exactly
"1.00 MB"); a whitespace-separated pair of separator glyphs collapses to one,
and a single leading separator is trimmed; but with three or more separator
glyphs the single replace-and-resume pass can leave a dangling separator. -/
theorem owner_separator_trim_amended :
    (∀ fileSize : String, '·' ∉ fileSize.data →
      replaceOGFileMagicVars ogFileDescTemplate { fileSize := fileSize, ownerName := "" } =
        goTrimSpace fileSize) ∧
    replaceOGFileMagicVars ogFileDescTemplate
      { fileSize := "1.00 MB", ownerName := "" } = "1.00 MB" ∧
    replaceOGFileMagicVars "{file_size} · · {owner_name}"
      { fileSize := "1.00 MB", ownerName := "" } = "1.00 MB" ∧
    replaceOGFileMagicVars "{owner_name} · x" { ownerName := "" } = "x" := by
  refine ⟨?_, by decide, by decide, by decide⟩
  intro fs hns
  unfold replaceOGFileMagicVars replaceOGMagicVars
  simp only [if_true]
  unfold trimEmptyOwnerSeparator
  rw [if_neg (by decide)]
  show goTrimSpace (goTrimMiddot (goTrimSpace ⟨sepReplace
    (goTrimSpace ⟨fs.data ++ [' ', '·', ' ']⟩).data⟩)) = goTrimSpace fs
  exact trim_owner_pipeline fs hns

/-- C8 witness: the amended theorem applied at the spec's concrete input. -/
theorem owner_separator_trim_amended_witness :
    '·' ∉ "1.00 MB".data ∧
    replaceOGFileMagicVars ogFileDescTemplate
      { fileSize := "1.00 MB", ownerName := "" } = goTrimSpace "1.00 MB" :=
  ⟨by decide, owner_separator_trim_amended.1 "1.00 MB" (by decide)⟩

/-! ## The preview renderers (src/pkg/sharepreview/preview.go and
src/service/share/visit.go)

Both renderers run inside a request whose collaborators (settings provider,
permission gate, hash-id codec, share store, file manager, route builders)
come from the request context; the environment below carries the outcome or
behaviour of each collaborator for the request being modelled. -/

structure SiteBasic where
  name : String
  description : String
  deriving DecidableEq, Repr

structure PWASettings where
  largeIcon : String
  mediumIcon : String
  deriving DecidableEq, Repr

structure GroupRec where
  permissions : Option (List Nat)
  deriving DecidableEq, Repr

/-- Modelled from the spec: types.GroupPermissionShareDownload, the download
capability the permission gate tests; the concrete tag value is irrelevant to
every property proved here. -/
def GroupPermissionShareDownload : Nat := 1

/-- Modelled from the spec: the permission set predicate
Permissions.Enabled(tag). -/
def permissionEnabled (ps : List Nat) (p : Nat) : Bool :=
  decide (p ∈ ps)

/-- Modelled from the spec: types.FileTypeFolder, the folder tag of
types.FileType; the concrete value is irrelevant to every property proved
here. -/
def FileTypeFolder : Nat := 1

/-- The fs.File the path resolver returns (Type, Name, DisplayName, Size). -/
structure ResolvedFile where
  fileType : Nat
  name : String
  displayName : String
  size : Int
  deriving DecidableEq, Repr

/-- Per-request collaborator outcomes consumed by the renderers. -/
structure PreviewEnv where
  siteBasic : SiteBasic
  pwa : PWASettings
  baseURL : String
  resolveRef : String → String
  masterShareUrl : String → GoURL
  masterShareLongUrl : String → String → GoURL
  anonymousGroup : Except Unit GroupRec
  decodeHashID : String → Except Unit Nat
  store : Nat → Except GoErr ShareRec
  storeByHash : String → Except GoErr ShareRec
  viewer : Option ShareUser
  resolvePathFile : Except Unit ResolvedFile
  requestQuery : Values

/-- The needLogin flag computed by both renderers: the anonymous group fails
to load, carries no permission set, or lacks the share-download capability. -/
def needLoginOf (env : PreviewEnv) : Bool :=
  match env.anonymousGroup with
  | .error _ => true
  | .ok g =>
    match g.permissions with
    | none => true
    | some ps => !(permissionEnabled ps GroupPermissionShareDownload)

/-- Embeds strings.HasPrefix. -/
def goHasPfx (s pre : String) : Bool :=
  isPrefixOfList pre.data s.data

/-- Embeds isAbsoluteURL from preview.go / visit.go. -/
def isAbsoluteURL (u : String) : Bool :=
  goHasPfx u "http://" || goHasPfx u "https://"

/-- The thumbnail choice both renderers make: PWA large icon, else medium
icon, resolved against the site base URL when relative. -/
def thumbnailURLOf (env : PreviewEnv) : String :=
  let t := if env.pwa.largeIcon = "" then env.pwa.mediumIcon else env.pwa.largeIcon
  if t ≠ "" ∧ isAbsoluteURL t = false then env.resolveRef t else t

/-- Embeds Go path.Ext: the suffix of the name starting at its final dot
(empty when the last slash-free element has no dot). -/
def pathExt (name : String) : String :=
  let rev := name.data.reverse
  let tail := rev.takeWhile (fun c => decide (c ≠ '.' ∧ c ≠ '/'))
  match rev.drop tail.length with
  | '.' :: _ => ⟨'.' :: tail.reverse⟩
  | _ => ""

/-- Embeds strings.TrimPrefix(s, "."). -/
def trimDotPfx (s : String) : String :=
  match s.data with
  | '.' :: rest => ⟨rest⟩
  | _ => s

/-- Which rendering scenario the orchestrator selected, together with the
final render data: the status page for non-displayable outcomes, or the
file/folder social card. -/
inductive OGScenario where
  | statusScn (label : String) (data : ShareOGData)
  | fileScn (data : ShareOGData)
  | folderScn (data : ShareOGData)
  deriving DecidableEq, Repr

def scenarioLabel : OGScenario → Option String
  | .statusScn label _ => some label
  | .fileScn _ => none
  | .folderScn _ => none

/-- The data mutation of renderStatusOG (both files): store the status label
and use the site name as the displayed name. -/
def renderStatusOGData (data : ShareOGData) (displayName status : String) : ShareOGData :=
  { data with status := status, displayName := displayName }

def defaultIfEmpty (value fallback : String) : String :=
  if value = "" then fallback else value

namespace Sharepreview

/-- Status labels of src/pkg/sharepreview/preview.go; note this file has no
distinct need-login label. -/
def ogStatusInvalidLink : String := "Invalid Link"

def ogStatusShareExpired : String := "Share Expired"

def ogStatusPasswordRequired : String := "Password Required"

def ogDefaultFileName : String := "Shared File"

def ogDefaultFolderName : String := "Shared Folder"

/-- Options of RenderOGPage in preview.go. -/
structure Options where
  id : String
  password : String
  sharePath : String
  deriving DecidableEq, Repr

/-- The file/folder tail of RenderOGPage (preview.go lines 136-147): pick the
folder or file card from the final entry type, defaulting empty names. -/
def finishEntry (ogData : ShareOGData) (fileType : Nat) (fileName : String)
    (fileSize : Int) : OGScenario :=
  if fileType = FileTypeFolder then
    let folderName := defaultIfEmpty fileName ogDefaultFolderName
    .folderScn { ogData with folderName := folderName, displayName := folderName }
  else
    let fn := defaultIfEmpty fileName ogDefaultFileName
    .fileScn { ogData with
      fileName := fn
      fileSize := FormatFileSize fileSize
      fileExt := trimDotPfx (pathExt fn)
      displayName := fn }

/-- The OG data preview.go assembles before resolving the share: site
identity, share URL (with the sanitized sub-path attached as a query
parameter when present), thumbnail, and the redirect target. -/
def baseOGData (env : PreviewEnv) (opts : Options) : ShareOGData :=
  let sharePath := SanitizeSharePath opts.sharePath
  let shareURL :=
    let u := env.masterShareUrl opts.id
    if sharePath ≠ "" then { u with query := valuesSet u.query "path" sharePath } else u
  { siteName := env.siteBasic.name, siteDescription := env.siteBasic.description,
    siteURL := env.baseURL, shareURL := urlString shareURL, shareID := opts.id,
    thumbnailURL := thumbnailURLOf env,
    redirectURL := BuildRedirectURL env.masterShareLongUrl opts.id opts.password
      sharePath env.requestQuery }

/-- Embeds the scenario selection of RenderOGPage from
src/pkg/sharepreview/preview.go: hash-id decoding, share loading and
classification, the anonymous-permission gate (folded into the ShareExpired
label in this file), the password gate, and sub-path resolution; the final
render data accompanies the selected scenario. -/
def renderOGDispatch (env : PreviewEnv) (opts : Options) : OGScenario :=
  let siteName := env.siteBasic.name
  let sharePath := SanitizeSharePath opts.sharePath
  let ogData : ShareOGData := baseOGData env opts
  match env.decodeHashID opts.id with
  | .error _ =>
    .statusScn ogStatusInvalidLink (renderStatusOGData ogData siteName ogStatusInvalidLink)
  | .ok shareID =>
    match LoadShareForInfo (env.store shareID) env.viewer opts.password with
    | (_, _, .notFound, _) =>
      .statusScn ogStatusInvalidLink (renderStatusOGData ogData siteName ogStatusInvalidLink)
    | (_, _, .expired, _) =>
      .statusScn ogStatusShareExpired (renderStatusOGData ogData siteName ogStatusShareExpired)
    | (_, _, .error, _) =>
      .statusScn ogStatusInvalidLink (renderStatusOGData ogData siteName ogStatusInvalidLink)
    | (none, _, .ok, _) =>
      -- unreachable: the OK classification always carries the record
      .statusScn ogStatusInvalidLink (renderStatusOGData ogData siteName ogStatusInvalidLink)
    | (some share, unlocked, .ok, _) =>
      if needLoginOf env then
        .statusScn ogStatusShareExpired (renderStatusOGData ogData siteName ogStatusShareExpired)
      else if share.password ≠ "" ∧ unlocked = false then
        .statusScn ogStatusPasswordRequired
          (renderStatusOGData ogData siteName ogStatusPasswordRequired)
      else
        match share.file with
        | none =>
          .statusScn ogStatusInvalidLink (renderStatusOGData ogData siteName ogStatusInvalidLink)
        | some f =>
          let ogData :=
            { ogData with ownerName :=
                (match share.user with
                 | some u => u.nick
                 | none => "") }
          if sharePath ≠ "" then
            if f.fileType ≠ FileTypeFolder then
              .statusScn ogStatusInvalidLink
                (renderStatusOGData ogData siteName ogStatusInvalidLink)
            else
              match env.resolvePathFile with
              | .error _ =>
                .statusScn ogStatusInvalidLink
                  (renderStatusOGData ogData siteName ogStatusInvalidLink)
              | .ok rf =>
                let fn := if rf.displayName ≠ "" then rf.displayName else rf.name
                finishEntry ogData rf.fileType fn rf.size
          else
            finishEntry ogData f.fileType f.name f.size

/-- Embeds RenderOGPage from src/pkg/sharepreview/preview.go: the selected
scenario rendered through the OG HTML templates of src/unnamed/part_005. -/
def RenderOGPage (env : PreviewEnv) (opts : Options) : String :=
  match renderOGDispatch env opts with
  | .statusScn _ d => RenderStatusOGHTML d ogStatusTitleTemplate ogStatusDescTemplate
  | .folderScn d => RenderFolderOGHTML d ogFolderTitleTemplate ogFolderDescTemplate
  | .fileScn d => RenderOGHTML d ogFileTitleTemplate ogFileDescTemplate

end Sharepreview

namespace ShareSvc

/-- Status labels of src/service/share/visit.go; this file has the distinct
need-login label. -/
def ogStatusInvalidLink : String := "Invalid Link"

def ogStatusNeedLogin : String := "Need Login"

def ogStatusShareExpired : String := "Share Expired"

def ogStatusPasswordRequired : String := "Password Required"

def ogDefaultFileName : String := "Shared File"

def ogDefaultFolderName : String := "Shared Folder"

/-- The bound parameters of the short-link service (uri id and password). -/
structure ShortLinkRedirectService where
  id : String
  password : String
  deriving DecidableEq, Repr

/-- Embeds RedirectTo from src/service/share/visit.go: append the caller's
path parameter (unsanitized here) to the template's path value, delete the
reserved key from the caller's set, and append-merge the remaining keys. -/
def RedirectTo (env : PreviewEnv) (s : ShortLinkRedirectService) : String :=
  let shareLongUrl := env.masterShareLongUrl s.id s.password
  let shortLinkQuery := env.requestQuery
  let q := shareLongUrl.query
  let userSpecifiedPath := valuesGetFirst shortLinkQuery "path"
  let q :=
    if userSpecifiedPath ≠ "" then
      valuesSet q "path" (valuesGetFirst q "path" ++ "/" ++ trimOneLeadingSlash userSpecifiedPath)
    else q
  let shortLinkQuery := valuesDel shortLinkQuery "path"
  let q := shortLinkQuery.foldl (fun acc e => valuesAppend acc e.1 e.2) q
  urlString { shareLongUrl with query := q }

/-- Embeds the scenario selection of RenderOGPage from
src/service/share/visit.go: any store error counts as not-found, and the
switch tests not-found, then the anonymous-permission gate (distinct
NeedLogin label), then expiry, then the password gate, then the file edge. -/
def renderOGDispatch (env : PreviewEnv) (s : ShortLinkRedirectService) : OGScenario :=
  let siteName := env.siteBasic.name
  let ogData : ShareOGData :=
    { siteName := siteName, siteDescription := env.siteBasic.description,
      siteURL := env.baseURL, shareURL := urlString (env.masterShareUrl s.id),
      shareID := s.id, thumbnailURL := thumbnailURLOf env,
      redirectURL := RedirectTo env s }
  match env.storeByHash s.id with
  | .error _ =>
    .statusScn ogStatusInvalidLink (renderStatusOGData ogData siteName ogStatusInvalidLink)
  | .ok share =>
    if needLoginOf env then
      .statusScn ogStatusNeedLogin (renderStatusOGData ogData siteName ogStatusNeedLogin)
    else if (IsValidShare share).isSome then
      .statusScn ogStatusShareExpired (renderStatusOGData ogData siteName ogStatusShareExpired)
    else if share.password ≠ "" ∧ isShareUnlocked share s.password env.viewer = false then
      .statusScn ogStatusPasswordRequired
        (renderStatusOGData ogData siteName ogStatusPasswordRequired)
    else
      match share.file with
      | none =>
        .statusScn ogStatusInvalidLink (renderStatusOGData ogData siteName ogStatusInvalidLink)
      | some f =>
        let ogData :=
          { ogData with ownerName :=
              (match share.user with
               | some u => u.nick
               | none => "") }
        if f.fileType = FileTypeFolder then
          let folderName := defaultIfEmpty f.name ogDefaultFolderName
          .folderScn { ogData with folderName := folderName, displayName := folderName }
        else
          let fn := defaultIfEmpty f.name ogDefaultFileName
          .fileScn { ogData with
            fileName := fn
            fileSize := FormatFileSize f.size
            fileExt := trimDotPfx (pathExt fn)
            displayName := fn }

/-- Embeds RenderOGPage from src/service/share/visit.go. -/
def RenderOGPage (env : PreviewEnv) (s : ShortLinkRedirectService) : String :=
  match renderOGDispatch env s with
  | .statusScn _ d => RenderStatusOGHTML d ogStatusTitleTemplate ogStatusDescTemplate
  | .folderScn d => RenderFolderOGHTML d ogFolderTitleTemplate ogFolderDescTemplate
  | .fileScn d => RenderOGHTML d ogFileTitleTemplate ogFileDescTemplate

end ShareSvc

/-! ## C1: status previews never leak the shared entry's identity -/

/-- Two share records that differ only in the file edge's name and size (and
in the folder name, which is the same field for folder entries): password,
expiry state, owner and entry kind agree, and the file edge is present in
both or absent in both. -/
def shareFileIdentityRel (s₁ s₂ : ShareRec) : Prop :=
  s₁.password = s₂.password ∧ s₁.expired = s₂.expired ∧ s₁.user = s₂.user ∧
    ((s₁.file = none ∧ s₂.file = none) ∨
      ∃ f₁ f₂, s₁.file = some f₁ ∧ s₂.file = some f₂ ∧ f₁.fileType = f₂.fileType)

/-- Two store outcomes that agree except for the shared entry's identity. -/
def storeRel : Except GoErr ShareRec → Except GoErr ShareRec → Prop
  | .error e₁, .error e₂ => e₁ = e₂
  | .ok s₁, .ok s₂ => shareFileIdentityRel s₁ s₂
  | _, _ => False

theorem isShareUnlocked_rel (s₁ s₂ : ShareRec) (pw : String) (viewer : Option ShareUser)
    (h : shareFileIdentityRel s₁ s₂) :
    isShareUnlocked s₁ pw viewer = isShareUnlocked s₂ pw viewer := by
  unfold isShareUnlocked
  rw [h.1, h.2.2.1]

theorem finishEntry_ne_status (ogData : ShareOGData) (ft : Nat) (fn : String) (fs : Int)
    (label : String) (d : ShareOGData) :
    Sharepreview.finishEntry ogData ft fn fs ≠ .statusScn label d := by
  unfold Sharepreview.finishEntry
  split
  · simp
  · simp

theorem sharepreview_dispatch_storeRel (env : PreviewEnv) (opts : Sharepreview.Options)
    (r₁ r₂ : Except GoErr ShareRec) (hrel : storeRel r₁ r₂) (label : String) (d : ShareOGData)
    (h1 : Sharepreview.renderOGDispatch { env with store := fun _ => r₁ } opts
      = .statusScn label d) :
    Sharepreview.renderOGDispatch { env with store := fun _ => r₂ } opts
      = .statusScn label d := by
  unfold Sharepreview.renderOGDispatch at h1 ⊢
  dsimp only [thumbnailURLOf, needLoginOf] at h1 ⊢
  rcases hdec : env.decodeHashID opts.id with u | shareID
  · rw [hdec] at h1
    exact h1
  · rw [hdec] at h1
    rcases r₁ with e₁ | s₁ <;> rcases r₂ with e₂ | s₂
    · cases hrel
      exact h1
    · exact hrel.elim
    · exact hrel.elim
    · obtain ⟨hpw, hexp, huser, hfile⟩ := hrel
      unfold LoadShareForInfo IsValidShare at h1 ⊢
      dsimp only at h1 ⊢
      by_cases hexpv : s₁.expired = true
      · rw [if_pos hexpv] at h1
        rw [if_pos (hexp ▸ hexpv)]
        dsimp only at h1 ⊢
        exact h1
      · rw [if_neg hexpv] at h1
        rw [if_neg (hexp ▸ hexpv)]
        dsimp only at h1 ⊢
        rw [show isShareUnlocked s₂ opts.password env.viewer
          = isShareUnlocked s₁ opts.password env.viewer from
          (isShareUnlocked_rel s₁ s₂ opts.password env.viewer ⟨hpw, hexp, huser, hfile⟩).symm]
        by_cases hnl : (match env.anonymousGroup with
          | .error _ => true
          | .ok g => match g.permissions with
            | none => true
            | some ps => !(permissionEnabled ps GroupPermissionShareDownload)) = true
        · rw [if_pos hnl] at h1 ⊢
          exact h1
        · rw [if_neg hnl] at h1 ⊢
          rw [← hpw]
          by_cases hlock : s₁.password ≠ "" ∧ isShareUnlocked s₁ opts.password env.viewer = false
          · rw [if_pos hlock] at h1 ⊢
            exact h1
          · rw [if_neg hlock] at h1 ⊢
            rw [← huser]
            rcases hfile with ⟨hf1, hf2⟩ | ⟨f₁, f₂, hf1, hf2, hft⟩
            · rw [hf1] at h1
              rw [hf2]
              dsimp only at h1 ⊢
              exact h1
            · rw [hf1] at h1
              rw [hf2]
              dsimp only at h1 ⊢
              by_cases hsp : SanitizeSharePath opts.sharePath ≠ ""
              · rw [if_pos hsp] at h1 ⊢
                rw [← hft]
                exact h1
              · rw [if_neg hsp] at h1 ⊢
                exact absurd h1 (finishEntry_ne_status _ _ _ _ _ _)

theorem sharepreview_status_displayName (env : PreviewEnv) (opts : Sharepreview.Options)
    (label : String) (d : ShareOGData)
    (h : Sharepreview.renderOGDispatch env opts = .statusScn label d) :
    d.displayName = env.siteBasic.name := by
  unfold Sharepreview.renderOGDispatch at h
  dsimp only at h
  repeat' split at h
  all_goals
    first
    | exact absurd h (finishEntry_ne_status _ _ _ _ _ _)
    | (injection h with h1 h2
       subst h2
       rfl)

/-- C1: whenever the preview resolution of pkg/sharepreview ends in a status
scenario (share not found, load error, expired, login required, password
required - every non-displayable outcome), the rendered HTML is unchanged
under any change to the shared entry's file name, folder name, or size, and
the displayed name is the site's own name. -/
theorem status_preview_no_identity_leak (env : PreviewEnv) (opts : Sharepreview.Options)
    (r₁ r₂ : Except GoErr ShareRec) (hrel : storeRel r₁ r₂) (label : String) (d : ShareOGData)
    (h1 : Sharepreview.renderOGDispatch { env with store := fun _ => r₁ } opts
      = .statusScn label d) :
    Sharepreview.RenderOGPage { env with store := fun _ => r₁ } opts =
      Sharepreview.RenderOGPage { env with store := fun _ => r₂ } opts ∧
    d.displayName = env.siteBasic.name := by
  have h2 := sharepreview_dispatch_storeRel env opts r₁ r₂ hrel label d h1
  constructor
  · unfold Sharepreview.RenderOGPage
    rw [h1, h2]
  · exact sharepreview_status_displayName { env with store := fun _ => r₁ } opts label d h1

/-- Concrete fixture for the C1 witness. -/
def c1Env : PreviewEnv :=
  { siteBasic := ⟨"Site", "Desc"⟩
    pwa := ⟨"", ""⟩
    baseURL := "http://x"
    resolveRef := fun s => s
    masterShareUrl := fun _ => ⟨"http://x/s/abc", []⟩
    masterShareLongUrl := fun _ _ => ⟨"http://x/home", [("path", ["cloudreve://share"])]⟩
    anonymousGroup := .ok ⟨some [1]⟩
    decodeHashID := fun _ => .ok 7
    store := fun _ => .error .notFound
    storeByHash := fun _ => .error .notFound
    viewer := none
    resolvePathFile := .error ()
    requestQuery := [("tag", ["a", "b"])] }

def c1Opts : Sharepreview.Options := ⟨"abc", "", ""⟩

/-- An expired share pointing at one file... -/
def c1ra : Except GoErr ShareRec := .ok ⟨"", true, none, some ⟨0, "secret-a.txt", 5⟩⟩

/-- ...and the same expired share with a different file name and size. -/
def c1rb : Except GoErr ShareRec := .ok ⟨"", true, none, some ⟨0, "other-b.pdf", 999⟩⟩

/-- C1 witness: the theorem applied at the concrete expired share. -/
theorem status_preview_no_identity_leak_witness :
    Sharepreview.RenderOGPage { c1Env with store := fun _ => c1ra } c1Opts =
      Sharepreview.RenderOGPage { c1Env with store := fun _ => c1rb } c1Opts ∧
    (renderStatusOGData (Sharepreview.baseOGData c1Env c1Opts) "Site"
      Sharepreview.ogStatusShareExpired).displayName = c1Env.siteBasic.name :=
  status_preview_no_identity_leak c1Env c1Opts c1ra c1rb
    ⟨rfl, rfl, rfl, Or.inr ⟨⟨0, "secret-a.txt", 5⟩, ⟨0, "other-b.pdf", 999⟩, rfl, rfl, rfl⟩⟩
    Sharepreview.ogStatusShareExpired
    (renderStatusOGData (Sharepreview.baseOGData c1Env c1Opts) "Site"
      Sharepreview.ogStatusShareExpired)
    (by rfl)

/-! ## C3: the need-login outcome and its label -/

/-- Concrete fixture for the C3 counterexample: the identifier decodes, the
share exists and is valid, the visitor is unauthenticated, and the
anonymous-access permission check fails (the anonymous group cannot be
loaded). -/
def c3Env : PreviewEnv :=
  { siteBasic := ⟨"Site", "Desc"⟩
    pwa := ⟨"", ""⟩
    baseURL := "http://x"
    resolveRef := fun s => s
    masterShareUrl := fun _ => ⟨"http://x/s/abc", []⟩
    masterShareLongUrl := fun _ _ => ⟨"http://x/home", [("path", ["cloudreve://share"])]⟩
    anonymousGroup := .error ()
    decodeHashID := fun _ => .ok 1
    store := fun _ => .ok ⟨"", false, none, some ⟨0, "f.txt", 10⟩⟩
    storeByHash := fun _ => .ok ⟨"", false, none, some ⟨0, "f.txt", 10⟩⟩
    viewer := none
    resolvePathFile := .error ()
    requestQuery := [] }

def c3Opts : Sharepreview.Options := ⟨"abc", "", ""⟩

/-- C3 counterexample: in pkg/sharepreview's RenderOGPage the login-required
outcome is rendered with the ShareExpired label ("Share Expired"), not a
distinct need-login label, even though the identifier decodes and the share
exists and is valid. -/
theorem needlogin_label_counterexample :
    scenarioLabel (Sharepreview.renderOGDispatch c3Env c3Opts) =
      some Sharepreview.ogStatusShareExpired ∧
    Sharepreview.ogStatusShareExpired ≠ ShareSvc.ogStatusNeedLogin := by
  constructor
  · rfl
  · decide

/-- C3 (amended): the service-layer short-link renderer
(src/service/share/visit.go) does use the distinct NeedLogin scenario: for an
unauthenticated visitor whose anonymous-access permission check fails, with
the share found by its hash id, it renders the status scenario with the
"Need Login" label, which differs from the ShareExpired label; the
pkg/sharepreview renderer instead folds this outcome into the ShareExpired
label. -/
theorem needlogin_distinct_amended (env : PreviewEnv)
    (svc : ShareSvc.ShortLinkRedirectService) (share : ShareRec)
    (hstore : env.storeByHash svc.id = .ok share)
    (hviewer : env.viewer = none)
    (hanon : needLoginOf env = true) :
    scenarioLabel (ShareSvc.renderOGDispatch env svc) = some ShareSvc.ogStatusNeedLogin ∧
    ShareSvc.ogStatusNeedLogin ≠ ShareSvc.ogStatusShareExpired := by
  constructor
  · unfold ShareSvc.renderOGDispatch
    dsimp only
    rw [hstore]
    dsimp only
    rw [if_pos hanon]
    rfl
  · decide

/-- C3 witness: the amended theorem applied at a concrete environment. -/
theorem needlogin_distinct_amended_witness :
    scenarioLabel (ShareSvc.renderOGDispatch c3Env ⟨"abc", ""⟩) =
      some ShareSvc.ogStatusNeedLogin ∧
    ShareSvc.ogStatusNeedLogin ≠ ShareSvc.ogStatusShareExpired :=
  needlogin_distinct_amended c3Env ⟨"abc", ""⟩ ⟨"", false, none, some ⟨0, "f.txt", 10⟩⟩
    rfl rfl rfl

/-! ## The share preview middleware (src/middleware/share_preview.go)

The middleware classifies the client, extracts the share id and password
from the request path or the cloudreve:// share address, enforces a
32-byte cap on both, and either renders its own OG page or passes the
request onward untouched. -/

namespace PreviewMW

/-- Status labels of src/middleware/share_preview.go. -/
def ogStatusInvalidLink : String := "Invalid Link"

def ogStatusShareUnavailable : String := "Share Unavailable"

def ogStatusPasswordRequired : String := "Password Required"

def ogStatusNeedLogin : String := "Login Required"

/-- The socialMediaBots list of src/middleware/share_preview.go. -/
def socialMediaBots : List String :=
  ["facebookexternalhit", "facebookcatalog", "facebot", "twitterbot", "linkedinbot",
   "discordbot", "telegrambot", "slackbot", "whatsapp"]

/-- Embeds isSocialMediaBot: case-insensitive substring match against the
bot list. -/
def isSocialMediaBot (ua : String) : Bool :=
  socialMediaBots.any (fun bot => goContains ua.toLower bot)

/-- The slice of a parsed net/url URL the middleware reads: the host and the
userinfo (username and password, the password empty when unset). -/
structure ParsedURL where
  host : String
  user : Option (String × String)
  deriving DecidableEq, Repr

/-- Embeds strings.TrimPrefix. -/
def trimPfx (s pre : String) : String :=
  if goHasPfx s pre then ⟨s.data.drop pre.data.length⟩ else s

/-- Per-request inputs and collaborator outcomes of the middleware.
net/url.Parse is standard-library code, modelled as the request's parse
outcome. -/
structure MWEnv where
  userAgent : String
  urlPath : String
  queryPath : String
  parseURL : String → Except Unit ParsedURL
  siteBasic : SiteBasic
  pwa : PWASettings
  resolveRef : String → String
  masterShareUrl : String → GoURL
  masterShareLongUrl : String → String → GoURL
  anonymousGroup : Except Unit GroupRec
  decodeHashID : String → Except Unit Nat
  store : Nat → Except GoErr ShareRec

/-- The extraction in extractShareParams before its final length cap: the
"/s/id/password" path form, or the cloudreve:// share address carried in the
path query parameter of "/home". -/
def extractShareParamsRaw (env : MWEnv) : String × String :=
  if goHasPfx env.urlPath "/s/" then
    match splitSlash (trimPfx env.urlPath "/s/").data with
    | [] => ("", "")
    | p0 :: rest =>
      if p0 = [] then ("", "")
      else
        (⟨p0⟩, match rest with
          | [] => ""
          | p1 :: _ => ⟨p1⟩)
  else if env.urlPath = "/home" ∨ env.urlPath = "/home/" then
    if goHasPfx env.queryPath "cloudreve://" then
      match env.parseURL env.queryPath with
      | .error _ => ("", "")
      | .ok u =>
        if u.host.toLower ≠ "share" ∨ u.user = none then ("", "")
        else
          match u.user with
          | some (name, pw) => (name, pw)
          | none => ("", "")
    else ("", "")
  else ("", "")

/-- Embeds extractShareParams from src/middleware/share_preview.go: the raw
extraction followed by the 32-byte cap on both the id and the password
(len() in Go counts UTF-8 bytes). -/
def extractShareParams (env : MWEnv) : String × String :=
  let raw := extractShareParamsRaw env
  if (strUTF8 raw.1).length > 32 ∨ (strUTF8 raw.2).length > 32 then ("", "")
  else raw

/-- The render data of the middleware's own OG page. -/
structure MWOGData where
  siteName : String
  title : String
  description : String
  imageURL : String
  shareURL : String
  redirectURL : String
  deriving DecidableEq, Repr

/-- Embeds resolveURL from src/middleware/share_preview.go. -/
def mwResolveURL (env : MWEnv) (path : String) : String :=
  if goHasPfx path "http://" || goHasPfx path "https://" then path
  else env.resolveRef path

/-- Embeds the middleware's ogTemplate execution (Go html/template, escaped
per context as in renderOGHTML above). -/
def mwRenderOGHTML (d : MWOGData) : String :=
  "<!DOCTYPE html>\n<html>\n<head>\n    <meta charset=\"utf-8\">\n    <meta property=\"og:title\" content=\"" ++
  htmlEscape d.title ++
  "\">\n    <meta property=\"og:description\" content=\"" ++
  htmlEscape d.description ++
  "\">\n    <meta property=\"og:image\" content=\"" ++
  htmlEscape d.imageURL ++
  "\">\n    <meta property=\"og:url\" content=\"" ++
  htmlEscape d.shareURL ++
  "\">\n    <meta property=\"og:type\" content=\"website\">\n    <meta property=\"og:site_name\" content=\"" ++
  htmlEscape d.siteName ++
  "\">\n    <meta name=\"twitter:card\" content=\"summary\">\n    <meta name=\"twitter:title\" content=\"" ++
  htmlEscape d.title ++
  "\">\n    <meta name=\"twitter:description\" content=\"" ++
  htmlEscape d.description ++
  "\">\n    <meta name=\"twitter:image\" content=\"" ++
  htmlEscape d.imageURL ++
  "\">\n    <title>" ++
  htmlEscape d.title ++ " - " ++ htmlEscape d.siteName ++
  "</title>\n</head>\n<body>\n    <script>window.location.href = \"" ++
  jsStrEscape d.redirectURL ++
  "\";</script>\n    <noscript><a href=\"" ++
  htmlEscape d.redirectURL ++
  "\">" ++
  htmlEscape d.title ++
  "</a></noscript>\n</body>\n</html>"

/-- Embeds canAnonymousAccessShare: false when the anonymous group cannot be
loaded or its permission set lacks the share-download capability (Enabled on
a nil set is false). -/
def canAnonymousAccessShare (env : MWEnv) : Bool :=
  match env.anonymousGroup with
  | .error _ => false
  | .ok g =>
    match g.permissions with
    | none => false
    | some ps => permissionEnabled ps GroupPermissionShareDownload

/-- Embeds renderShareOGPage from src/middleware/share_preview.go.  The
password test subtle.ConstantTimeCompare(stored, supplied) != 1 is string
inequality (the constant-time execution itself is a timing property outside
the embedding). -/
def renderShareOGPage (env : MWEnv) (id password : String) : String :=
  let base : MWOGData :=
    { siteName := env.siteBasic.name, title := env.siteBasic.name,
      description := env.siteBasic.description,
      imageURL :=
        if env.pwa.largeIcon ≠ "" then mwResolveURL env env.pwa.largeIcon
        else if env.pwa.mediumIcon ≠ "" then mwResolveURL env env.pwa.mediumIcon
        else "",
      shareURL := urlString (env.masterShareUrl id),
      redirectURL := urlString (env.masterShareLongUrl id password) }
  match env.decodeHashID id with
  | .error _ => mwRenderOGHTML { base with description := ogStatusInvalidLink }
  | .ok shareID =>
    match env.store shareID with
    | .error e =>
      if isNotFoundErr e then mwRenderOGHTML { base with description := ogStatusInvalidLink }
      else mwRenderOGHTML { base with description := ogStatusShareUnavailable }
    | .ok share =>
      if (IsValidShare share).isSome then
        mwRenderOGHTML { base with description := ogStatusShareUnavailable }
      else if canAnonymousAccessShare env = false then
        mwRenderOGHTML { base with description := ogStatusNeedLogin }
      else if share.password ≠ "" ∧ password ≠ share.password then
        mwRenderOGHTML { base with description := ogStatusPasswordRequired }
      else
        match share.file with
        | none => mwRenderOGHTML base
        | some f =>
          let d1 :=
            { base with
              title := f.name
              description :=
                if f.fileType = FileTypeFolder then "Folder" else FormatFileSize f.size }
          let d2 :=
            match share.user with
            | some u =>
              if u.nick ≠ "" then { d1 with description := d1.description ++ " · " ++ u.nick }
              else d1
            | none => d1
          mwRenderOGHTML d2

/-- Embeds the SharePreview middleware handler: none models passing the
request onward unmodified (c.Next() without writing anything); some html
models the 200 text/html response. -/
def SharePreview (env : MWEnv) : Option String :=
  if isSocialMediaBot env.userAgent = false then none
  else if (extractShareParams env).1 = "" then none
  else some (renderShareOGPage env (extractShareParams env).1 (extractShareParams env).2)

end PreviewMW

/-- C10: when the raw id or password extracted from the "/s/..." path or from
the cloudreve:// share address exceeds 32 bytes, parameter extraction returns
the empty pair, and the middleware passes the request onward unmodified
instead of rendering any preview document. -/
theorem overlong_share_params_pass_through (env : PreviewMW.MWEnv)
    (h : (strUTF8 (PreviewMW.extractShareParamsRaw env).1).length > 32 ∨
      (strUTF8 (PreviewMW.extractShareParamsRaw env).2).length > 32) :
    PreviewMW.extractShareParams env = ("", "") ∧
    PreviewMW.SharePreview env = none := by
  have he : PreviewMW.extractShareParams env = ("", "") := by
    unfold PreviewMW.extractShareParams
    rw [if_pos h]
  refine ⟨he, ?_⟩
  unfold PreviewMW.SharePreview
  by_cases hbot : PreviewMW.isSocialMediaBot env.userAgent = false
  · rw [if_pos hbot]
  · rw [if_neg hbot, if_pos (by rw [he])]

/-- Concrete fixture for the C10 witness: a crawler request for /s/ with a
33-byte share id. -/
def c10Env : PreviewMW.MWEnv :=
  { userAgent := "Twitterbot/1.0"
    urlPath := "/s/aaaaaaaaaaaaaaaaaaaaaaaaaaaaaaaaa/pw"
    queryPath := ""
    parseURL := fun _ => .error ()
    siteBasic := ⟨"Site", "Desc"⟩
    pwa := ⟨"", ""⟩
    resolveRef := fun s => s
    masterShareUrl := fun _ => ⟨"http://x/s", []⟩
    masterShareLongUrl := fun _ _ => ⟨"http://x/home", []⟩
    anonymousGroup := .error ()
    decodeHashID := fun _ => .error ()
    store := fun _ => .error .notFound }

/-- C10 witness: the theorem applied at the concrete overlong id. -/
theorem overlong_share_params_pass_through_witness :
    PreviewMW.extractShareParams c10Env = ("", "") ∧
    PreviewMW.SharePreview c10Env = none :=
  overlong_share_params_pass_through c10Env (by decide)
